import Mathlib

/-!
# Dell Precision 7780 display priority manager

A shallow embedding of `src/display_priority_manager.c`: the eligibility gate
(`should_apply_fix`), the parser of the `kscreen-doctor -o` dump
(`parse_kscreen_output`), the reconciliation and command rendering
(`apply_kscreen_fix`) and the retry loop of `main`.

Conventions of the embedding.

* A C string is a `List Char`, one `Char` per byte, without its terminating
  NUL; reaching the end of the list is reading the terminator.
* C `int` values are `Int`; where the source can leave the 32-bit range the
  conversion is written out (`wrap32`).
* The functions of the C library (`fgets`, `sscanf`, `strstr`, `snprintf`,
  `atoi`) follow the C standard, and glibc on a 64-bit `long` where the standard
  leaves the result open (a number too large for `%d`).
* Everything the program reads from the outside (files, pipes, the exit status
  of `system`, signal delivery) is an explicit argument.
* The array `line[1024]` of the parser is part of the state: behind the NUL of
  the line just read it keeps the bytes of earlier lines, and the stripping loop
  can get there.
* Where the program reads a byte that nothing has written yet, or writes outside
  an array, the result is an explicit `Fault` and the embedding follows the
  program no further.
* Of the shell pipelines only the `grep -c connected` of
  `count_connected_displays` is modelled; the other pipelines are inputs.
* Logging is not modelled, except for the command logged by `Executing: %s`.
-/

namespace DisplayPriorityManager

/-! ## C library primitives -/

/-- The byte `\033` that starts an ANSI escape sequence. -/
def ESC : Char := Char.ofNat 27

/-- The NUL byte that terminates a C string. -/
def NUL : Char := Char.ofNat 0

/-- The `isspace` of the C locale: space, `\t`, `\n`, `\v`, `\f`, `\r`. -/
def isspace (c : Char) : Bool :=
  c = ' ' || c = '\t' || c = '\n' || c = Char.ofNat 11 || c = Char.ofNat 12 || c = '\r'

/-- The `isdigit` of the C locale. -/
def isdigit (c : Char) : Bool :=
  decide (48 ≤ c.toNat) && decide (c.toNat ≤ 57)

/-- The test `strstr(haystack, needle) != NULL`: `needle` occurs in `haystack`. -/
def strstr (haystack needle : List Char) : Bool :=
  haystack.tails.any (fun t => needle.isPrefixOf t)

/-- The content of a buffer seen as a C string: the bytes before the first NUL. -/
def cstr (buf : List Char) : List Char :=
  buf.takeWhile (fun c => c != NUL)

/-- The successive results of `fgets(buf, size, fp)` on a stream, until it returns
NULL: each call stores at most `size - 1` bytes and stops after a newline.
`cur` holds the bytes the call in progress has already stored. -/
def fgets_all (size : Nat) : List Char → List Char → List (List Char)
  | [], cur => if cur.isEmpty then [] else [cur]
  | c :: cs, cur =>
      if c = '\n' ∨ cur.length + 1 = size - 1 then (cur ++ [c]) :: fgets_all size cs []
      else fgets_all size cs (cur ++ [c])

/-- A value of type `long` (64 bits): `strtol` saturates at `LONG_MIN`, `LONG_MAX`. -/
def clamp64 (v : Int) : Int :=
  max (-(2 : Int) ^ 63) (min v ((2 : Int) ^ 63 - 1))

/-- The conversion of an integer to a 32-bit `int` (two's complement wrap). -/
def wrap32 (v : Int) : Int :=
  (v + (2 : Int) ^ 31) % (2 : Int) ^ 32 - (2 : Int) ^ 31

/-- The white-space directive of `scanf`, also run before `%s` and `%d`. -/
def skip_space (s : List Char) : List Char :=
  s.dropWhile isspace

/-- The conversion `%s` of `scanf`, with its maximum field width when it has one:
the token read and the rest of the input; `none` when the input ends first. -/
def scan_s (width : Option Nat) (s : List Char) : Option (List Char × List Char) :=
  match skip_space s with
  | [] => none
  | c :: r =>
      let tok := (c :: r).takeWhile (fun x => !isspace x)
      let tok := match width with
        | some w => tok.take w
        | none => tok
      some (tok, (c :: r).drop tok.length)

/-- The value of a run of decimal digits. -/
def digits_value (ds : List Char) : Nat :=
  ds.foldl (fun a c => 10 * a + (c.toNat - 48)) 0

/-- The optional sign that `%d` accepts before the digits: whether it is a minus,
and the input behind it. -/
def scan_sign : List Char → Bool × List Char
  | '-' :: r => (true, r)
  | '+' :: r => (false, r)
  | s => (false, s)

/-- The conversion `%d` of `scanf`: an optional sign and at least one digit, read
through `strtol` and stored in an `int`; `none` on a matching failure. -/
def scan_d (s : List Char) : Option (Int × List Char) :=
  let (neg, s) := scan_sign (skip_space s)
  let ds := s.takeWhile isdigit
  if ds.isEmpty then none
  else
    let n : Int := digits_value ds
    some (wrap32 (clamp64 (if neg then -n else n)), s.drop ds.length)

/-- The text `printf` writes for `%d`. -/
def fmt_d (v : Int) : List Char :=
  if v < 0 then '-' :: Nat.toDigits 10 v.natAbs else Nat.toDigits 10 v.toNat

/-- The call `atoi(s)`, that is `(int) strtol(s, NULL, 10)`. -/
def atoi (s : List Char) : Int :=
  match scan_d s with
  | some (v, _) => v
  | none => 0

/-! ## Faults -/

/-- The ways in which the program leaves the memory that the embedding holds. -/
inductive Fault where
  /-- The ANSI-stripping loop reads a byte of `line[]` that no `fgets` has written
  so far (an unspecified value), or `line[1024]`. It gets there by stepping over a
  NUL: an escape sequence without its final `m` ends the inner `while` on the NUL
  and the `i++` of the `for` moves past it. -/
  | read_unwritten
  /-- The call `strcat(command, ext_cmd)` writes beyond `command[2048]`: undefined
  behaviour. -/
  | command_overflow
deriving DecidableEq, Repr

/-- Equality of results is decidable. -/
instance instDecidableEqExcept {ε α : Type} [DecidableEq ε] [DecidableEq α] :
    DecidableEq (Except ε α)
  | .ok a, .ok b => if h : a = b then isTrue (by rw [h]) else isFalse (fun e => h (Except.ok.inj e))
  | .error a, .error b =>
      if h : a = b then isTrue (by rw [h]) else isFalse (fun e => h (Except.error.inj e))
  | .ok _, .error _ => isFalse (fun e => Except.noConfusion e)
  | .error _, .ok _ => isFalse (fun e => Except.noConfusion e)

/-! ## The parser -/

/-- The record `DisplayInfo`. -/
structure DisplayInfo where
  name : List Char
  priority : Int
  is_internal : Bool
deriving DecidableEq, Repr

/-- The bytes of `line[1024]` written so far, after `fgets` has stored a chunk of
at most 1023 bytes and its NUL at the start of the array: behind the NUL the array
keeps what earlier calls have stored there. The bytes of the array that no call
has written yet are not in the list. -/
def fgets_store (line chunk : List Char) : List Char :=
  chunk ++ NUL :: line.drop (chunk.length + 1)

/-- The ANSI-stripping loop of `parse_kscreen_output`. The list holds the written
bytes of `line[]` from index `i` on, NUL bytes included, `j` is the index into
`clean_line`, `acc` the bytes stored there so far, and the flag says that the
inner `while` is running. The `for` stops on a NUL or when `clean_line` is full;
the inner `while` stops on a NUL or on `m`, and the `i++` of the `for` then steps
over that byte, whichever it is. The result is `clean_line`. -/
def strip_loop : Bool → List Char → Nat → List Char → Except Fault (List Char)
  | _, [], _, _ => .error Fault.read_unwritten
  | false, c :: cs, j, acc =>
      if c ≠ NUL ∧ j < 1024 - 1 then
        if c = ESC then strip_loop true cs j acc
        else strip_loop false cs (j + 1) (acc ++ [c])
      else .ok acc
  | true, c :: cs, j, acc =>
      if c ≠ NUL ∧ c ≠ 'm' then strip_loop true cs j acc
      else strip_loop false cs j acc

/-- The cleaned line that the loop makes of the content of `line[]`. -/
def strip_ansi (line : List Char) : Except Fault (List Char) :=
  strip_loop false line 0 []

/-- The locals of `parse_kscreen_output` that live across lines. -/
structure ParseState where
  displays : List DisplayInfo
  current_output : List Char
  current_priority : Int
deriving DecidableEq, Repr

/-- The block "save the display if valid", which the source has twice. -/
def save_display (st : ParseState) : List DisplayInfo :=
  if st.current_output ≠ [] ∧ st.current_priority > 0 then
    st.displays ++ [{ name := st.current_output,
                      priority := st.current_priority,
                      is_internal := strstr st.current_output "eDP".toList
                        || strstr st.current_output "LVDS".toList }]
  else st.displays

/-- The call `sscanf(clean_line, "%*s %*d %63s", current_output)`: the new content
of `current_output`, which a failed conversion leaves as it was. -/
def sscanf_output (clean_line current_output : List Char) : List Char :=
  match scan_s none clean_line with
  | none => current_output
  | some (_, r1) =>
      match scan_d r1 with
      | none => current_output
      | some (_, r2) =>
          match scan_s (some 63) r2 with
          | none => current_output
          | some (tok, _) => tok

/-- The call `sscanf(clean_line, "%*s %d", &current_priority)`. -/
def sscanf_priority (clean_line : List Char) (current_priority : Int) : Int :=
  match scan_s none clean_line with
  | none => current_priority
  | some (_, r1) =>
      match scan_d r1 with
      | none => current_priority
      | some (v, _) => v

/-- The body of the `while (fgets ...)` loop after the line has been cleaned. -/
def process_line (st : ParseState) (clean_line : List Char) : ParseState :=
  if strstr clean_line "Output:".toList then
    { displays := save_display st,
      current_output := sscanf_output clean_line st.current_output,
      current_priority := -1 }
  else if strstr clean_line "priority".toList then
    { st with current_priority := sscanf_priority clean_line st.current_priority }
  else st

/-- The `while (fgets ...)` loop over the chunks that the calls of `fgets` read;
`line` is what the array `line[]` holds before the call. -/
def parse_lines : List (List Char) → List Char → ParseState → Except Fault ParseState
  | [], _, st => .ok st
  | chunk :: rest, line, st =>
      match strip_ansi (fgets_store line chunk) with
      | .error f => .error f
      | .ok clean_line =>
          parse_lines rest (fgets_store line chunk) (process_line st clean_line)

/-- The state before the first line. -/
def ParseState.init : ParseState :=
  { displays := [], current_output := [], current_priority := -1 }

/-- The function `parse_kscreen_output`. The argument is what
`popen("kscreen-doctor -o 2>/dev/null", "r")` gives: `none` when it fails, else
the bytes of the pipe. The result is the return value and `*displays`
(allocation is taken to succeed). At entry no byte of `line[]` is written. -/
def parse_kscreen_output (pipe : Option (List Char)) :
    Except Fault (Int × List DisplayInfo) :=
  match pipe with
  | none => .ok (-1, [])
  | some stream =>
      match parse_lines (fgets_all 1024 stream []) [] ParseState.init with
      | .error f => .error f
      | .ok st => .ok (0, save_display st)

/-! ## Reconciliation and command rendering -/

/-- What `snprintf(buf, size, ...)` leaves in `buf`: the text cut to `size - 1` bytes. -/
def snprintf (size : Nat) (text : List Char) : List Char :=
  text.take (size - 1)

/-- What one call of `apply_display_fix` finds outside the program: the result of
`popen("kscreen-doctor -o ...")` and the exit status `system` gives a command. -/
structure AttemptEnv where
  kscreen_pipe : Option (List Char)
  system : List Char → Int

/-- What one call of `apply_kscreen_fix` does: its return value, the content of
`command` it logs with `Executing: %s` (when it gets there) and the commands it
passes to `system`. -/
structure FixOutcome where
  ret : Int
  command : Option (List Char)
  system_calls : List (List Char)
deriving DecidableEq, Repr

/-- The loop "Set external displays to priority 2+" of `apply_kscreen_fix`:
`ext_priority` and `command` are its two variables. The `strcat` fits when the
bytes of both strings and the final NUL fit `command[2048]`. `ext_priority` stays
in the range of `int`: every increment follows a `strcat` that makes the command
longer. -/
def append_externals : List DisplayInfo → Int → List Char → Except Fault (List Char)
  | [], _, command => .ok command
  | d :: rest, ext_priority, command =>
      if !d.is_internal then
        let ext_cmd := snprintf 256
          (" output.".toList ++ d.name ++ ".priority.".toList ++ fmt_d ext_priority)
        if command.length + ext_cmd.length < 2048 then
          append_externals rest (ext_priority + 1) (command ++ ext_cmd)
        else .error Fault.command_overflow
      else append_externals rest ext_priority command

/-- The part of `apply_kscreen_fix` that follows the parse: it works on the
displays found (`display_count` is the length of the list). -/
def fix_displays (dry_run : Bool) (system : List Char → Int) (displays : List DisplayInfo) :
    Except Fault FixOutcome :=
  if displays.length = 0 then .ok { ret := -1, command := none, system_calls := [] }
  else
    match displays.find? (fun d => d.is_internal) with
    | none => .ok { ret := -1, command := none, system_calls := [] }
    | some internal_display =>
        if internal_display.priority = 1 then
          .ok { ret := 0, command := none, system_calls := [] }
        else
          let command := snprintf 2048
            ("kscreen-doctor output.".toList ++ internal_display.name ++ ".priority.1".toList)
          match append_externals displays 2 command with
          | .error f => .error f
          | .ok command =>
              if dry_run then .ok { ret := 0, command := some command, system_calls := [] }
              else if system command = 0 then
                .ok { ret := 0, command := some command, system_calls := [command] }
              else .ok { ret := -1, command := some command, system_calls := [command] }

/-- The function `apply_kscreen_fix`. -/
def apply_kscreen_fix (dry_run : Bool) (env : AttemptEnv) : Except Fault FixOutcome :=
  match parse_kscreen_output env.kscreen_pipe with
  | .error f => .error f
  | .ok (r, displays) =>
      if r < 0 then .ok { ret := -1, command := none, system_calls := [] }
      else fix_displays dry_run env.system displays

/-- The enumeration `FixMode`. -/
inductive FixMode where
  | MODE_AUTO
  | MODE_KSCREEN
  | MODE_CONFIG
  | MODE_LIBRARY
  | MODE_CHECK
  | MODE_DAEMON
deriving DecidableEq, Repr

/-- The fields of the global `options` that the decision logic reads. -/
structure Options where
  mode : FixMode
  force : Bool
  dry_run : Bool
  max_retries : Int
  retry_delay : Int
deriving DecidableEq, Repr

/-- The function `apply_display_fix` (the report that `MODE_CHECK` prints is not
modelled). -/
def apply_display_fix (o : Options) (env : AttemptEnv) : Except Fault FixOutcome :=
  match o.mode with
  | .MODE_KSCREEN | .MODE_AUTO => apply_kscreen_fix o.dry_run env
  | .MODE_CONFIG => .ok { ret := -1, command := none, system_calls := [] }
  | .MODE_LIBRARY => .ok { ret := -1, command := none, system_calls := [] }
  | .MODE_CHECK =>
      match parse_kscreen_output env.kscreen_pipe with
      | .error f => .error f
      | .ok (r, _) =>
          if r < 0 then .ok { ret := -1, command := none, system_calls := [] }
          else .ok { ret := 0, command := none, system_calls := [] }
  | .MODE_DAEMON => .ok { ret := -1, command := none, system_calls := [] }

/-! ## The eligibility gate -/

/-- What the hardware checks read from the host. A file is `none` when `fopen`
fails, a pipe is `none` when `popen` fails. -/
structure HostEnv where
  /-- The file `/sys/class/dmi/id/sys_vendor`. -/
  sys_vendor : Option (List Char)
  /-- The file `/sys/class/dmi/id/product_name`. -/
  product_name : Option (List Char)
  /-- Whether `access("/proc/driver/nvidia", F_OK)` is 0. -/
  nvidia_driver : Bool
  /-- The output of `lspci | grep -i nvidia`. -/
  lspci_nvidia : Option (List Char)
  /-- The output of the `lspci | grep -i` for Intel graphics. -/
  lspci_intel : Option (List Char)
  /-- The lines that the `find /sys/class/drm ... -exec cat` part of the pipeline
  prints: the status attribute of every connector (`connected`, `disconnected`,
  `unknown`), one per line, each without its newline. -/
  drm_status : Option (List (List Char))

/-- A zero-initialised buffer after `if (fp) fgets(buf, size, fp)`, as a C string. -/
def first_line (size : Nat) (file : Option (List Char)) : List Char :=
  match file with
  | none => []
  | some content =>
      match fgets_all size content [] with
      | [] => []
      | line :: _ => cstr line

/-- The effect of `s[strcspn(s, "\n")] = 0`. -/
def chomp (s : List Char) : List Char :=
  s.takeWhile (fun c => c != '\n')

/-- The string `vendor` that `check_dell_precision_7780` tests. -/
def host_vendor (host : HostEnv) : List Char :=
  chomp (first_line 256 host.sys_vendor)

/-- The string `product` that `check_dell_precision_7780` tests. -/
def host_product (host : HostEnv) : List Char :=
  chomp (first_line 256 host.product_name)

/-- The function `check_dell_precision_7780`. -/
def check_dell_precision_7780 (host : HostEnv) : Bool :=
  if !strstr (host_vendor host) "Dell".toList
      || !strstr (host_product host) "Precision 7780".toList then false
  else true

/-- The function `check_nvidia_discrete`. A `while (fgets ...)` loop sets its flag
when the pipe gives at least one line. -/
def check_nvidia_discrete (host : HostEnv) : Bool :=
  if !host.nvidia_driver then false
  else
    match host.lspci_nvidia with
    | none => false
    | some out =>
        let has_nvidia := !(fgets_all 512 out []).isEmpty
        if !has_nvidia then false
        else
          match host.lspci_intel with
          | none => true
          | some out =>
              let has_intel := !(fgets_all 512 out []).isEmpty
              if has_intel then false else true

/-- What `grep -c pattern` prints: the number of input lines in which the pattern
occurs, and a newline. -/
def grep_c (pattern : List Char) (lines : List (List Char)) : List Char :=
  Nat.toDigits 10 (lines.filter (fun l => strstr l pattern)).length ++ ['\n']

/-- The function `count_connected_displays`: it reads the count that the
`grep -c connected` at the end of its pipeline prints. -/
def count_connected_displays (host : HostEnv) : Int :=
  match host.drm_status with
  | none => 0
  | some statuses =>
      match fgets_all 32 (grep_c "connected".toList statuses) [] with
      | [] => 0
      | buffer :: _ => atoi (cstr buffer)

/-- The three hardware checks of `should_apply_fix`. -/
inductive Gate where
  | host_identity
  | discrete_gpu
  | display_count
deriving DecidableEq, Repr

/-- The function `should_apply_fix`: its return value and the checks it ran, in
the order in which it ran them. -/
def should_apply_fix (force : Bool) (host : HostEnv) : Bool × List Gate :=
  if force then (true, [])
  else if !check_dell_precision_7780 host then (false, [Gate.host_identity])
  else if !check_nvidia_discrete host then (false, [Gate.host_identity, Gate.discrete_gpu])
  else if count_connected_displays host < 2 then
    (false, [Gate.host_identity, Gate.discrete_gpu, Gate.display_count])
  else (true, [Gate.host_identity, Gate.discrete_gpu, Gate.display_count])

/-! ## The retry loop of `main` -/

/-- What the retry loop does that can be observed from outside. -/
inductive Event where
  /-- The call of `apply_display_fix` made when `attempts` has this value. -/
  | attempt (attempts : Nat)
  /-- The call `sleep(options.retry_delay)`. -/
  | sleep (seconds : Int)
deriving DecidableEq, Repr

/-- The variables of the retry loop, the global `running` among them, and the
events so far. `attempts` never leaves the range of `int`: it stays at or below
`max_retries`. -/
structure LoopState where
  attempts : Nat
  result : Int
  running : Bool
  events : List Event
deriving DecidableEq, Repr

/-- The function `signal_handler`. -/
def signal_handler (s : LoopState) : LoopState :=
  { s with running := false }

/-- The loop `while (attempts < options.max_retries && result != 0)` of `main`.
`call k` is the result of the call of `apply_display_fix` made after `k` earlier
calls; `signal k` says that SIGINT or SIGTERM is delivered before the loop tests
its condition with `attempts = k`. The first argument bounds the number of tests
of the condition. -/
def retry_loop (max_retries retry_delay : Int) (call : Nat → Except Fault Int)
    (signal : Nat → Bool) : Nat → LoopState → Except Fault LoopState
  | 0, s => .ok s
  | fuel + 1, s0 =>
      let s := if signal s0.attempts then signal_handler s0 else s0
      if (s.attempts : Int) < max_retries ∧ s.result ≠ 0 then
        let attempts := s.attempts + 1
        match call s.attempts with
        | .error f => .error f
        | .ok result =>
            let events := s.events ++ [Event.attempt attempts]
            if result = 0 then
              .ok { s with attempts := attempts, result := result, events := events }
            else if (attempts : Int) < max_retries then
              retry_loop max_retries retry_delay call signal fuel
                { s with attempts := attempts, result := result,
                         events := events ++ [Event.sleep retry_delay] }
            else
              retry_loop max_retries retry_delay call signal fuel
                { s with attempts := attempts, result := result, events := events }
      else .ok s

/-- What a run of `main` does: its return value and the final state of the loop. -/
structure MainOutcome where
  ret : Int
  attempts : Nat
  running : Bool
  events : List Event
deriving DecidableEq, Repr

/-- The part "Apply fix with retries" of `main`, up to its `return result`. The
loop tests its condition at most `max_retries + 1` times. -/
def run_attempts (o : Options) (world : Nat → AttemptEnv) (signal : Nat → Bool) :
    Except Fault MainOutcome :=
  match retry_loop o.max_retries o.retry_delay
      (fun k => (apply_display_fix o (world k)).map (fun out => out.ret)) signal
      (o.max_retries.toNat + 1)
      { attempts := 0, result := -1, running := true, events := [] } with
  | .error f => .error f
  | .ok s => .ok { ret := s.result, attempts := s.attempts, running := s.running,
                   events := s.events }

/-- The function `main` once the command line has been read into `options`:
`world k` is what the call of `apply_display_fix` made after `k` earlier calls
finds. -/
def main (o : Options) (host : HostEnv) (world : Nat → AttemptEnv) (signal : Nat → Bool) :
    Except Fault MainOutcome :=
  if !(should_apply_fix o.force host).1 then
    .ok { ret := 0, attempts := 0, running := true, events := [] }
  else run_attempts o world signal

/-! ## Concrete inputs used by the theorems -/

/-- The dump of the example as the specification writes it: the name before the
number on the `Output:` lines. -/
def example_dump_name_first : List Char :=
  "Output: HDMI-1 0 enabled\n  priority 2\nOutput: eDP-1 1 enabled\n  priority 3\n".toList

/-- The same dump with the number before the name, the order `kscreen-doctor -o`
prints and the format `"%*s %*d %63s"` reads. -/
def example_dump_id_first : List Char :=
  "Output: 0 HDMI-1 enabled\n  priority 2\nOutput: 1 eDP-1 enabled\n  priority 3\n".toList

/-- A host on which every hardware check fails: no DMI files, no NVIDIA driver,
no pipe. -/
def bare_host : HostEnv :=
  { sys_vendor := none, product_name := none, nvidia_driver := false,
    lspci_nvidia := none, lspci_intel := none, drm_status := none }

/-- The default options with `--force`. -/
def forced_options : Options :=
  { mode := FixMode.MODE_AUTO, force := true, dry_run := false,
    max_retries := 3, retry_delay := 5 }

/-- An attempt during which `kscreen-doctor` cannot be started. -/
def no_pipe : AttemptEnv :=
  { kscreen_pipe := none, system := fun _ => 0 }

/-- An attempt that sees one external display and no internal one. -/
def external_only : AttemptEnv :=
  { kscreen_pipe := some "Output: 1 HDMI-1 enabled\n  priority 1\n".toList,
    system := fun _ => 0 }

/-! ## Definitions used to state the theorems -/

/-- The events of `count` attempts with a sleep between two consecutive ones and
none after the last: attempt 1, sleep, attempt 2, ..., attempt `count`. -/
def attempt_events (retry_delay : Int) (count : Nat) : List Event :=
  List.intersperse (Event.sleep retry_delay) ((List.range' 1 count).map Event.attempt)

/-- Whether the event is a call of `sleep`. -/
def Event.is_sleep : Event → Bool
  | Event.sleep _ => true
  | Event.attempt _ => false

/-- Whether the event is a call of `apply_display_fix`. -/
def Event.is_attempt : Event → Bool
  | Event.sleep _ => false
  | Event.attempt _ => true

/-- What `save_display` guarantees of a record: a non-empty name that fits
`name[64]`, a positive priority, and the classification read off the name. -/
def DisplayInfo.well_formed (d : DisplayInfo) : Prop :=
  d.name ≠ [] ∧ d.name.length ≤ 63 ∧ 0 < d.priority
    ∧ d.is_internal = (strstr d.name "eDP".toList || strstr d.name "LVDS".toList)

/-- Whether a record is well formed can be computed. -/
instance DisplayInfo.decidable_well_formed (d : DisplayInfo) : Decidable d.well_formed := by
  unfold DisplayInfo.well_formed
  infer_instance

/-- A dump in which two outputs carry the same name. -/
def same_name_dump : List Char :=
  "Output: 1 DP-1 enabled\n  priority 1\nOutput: 2 DP-1 enabled\n  priority 2\n".toList

/-- A dump whose second `Output:` line carries no name. -/
def nameless_output_dump : List Char :=
  "Output: 1 DP-1 enabled\n  priority 1\nOutput:\n  priority 2\n".toList

/-- The relation "`coloured` is `plain` with ANSI escape sequences inserted":
`plain` has no ESC byte and `coloured` is obtained from it by inserting, at any
positions, sequences made of an ESC byte, bytes other than `m` (and other than
NUL, which no byte of a C string is) and a final `m`. -/
inductive Colorized : List Char → List Char → Prop where
  | nil : Colorized [] []
  | keep (c : Char) (plain coloured : List Char) :
      c ≠ ESC → Colorized plain coloured → Colorized (c :: plain) (c :: coloured)
  | esc (body plain coloured : List Char) :
      (∀ b ∈ body, b ≠ 'm' ∧ b ≠ NUL) → Colorized plain coloured →
      Colorized plain (ESC :: (body ++ 'm' :: coloured))

/-- The dump made of the given lines, each followed by a newline, and of a last
line that no newline ends (empty when the dump ends with a newline). -/
def dump_of (lines : List (List Char)) (last : List Char) : List Char :=
  (lines.map (fun l => l ++ ['\n'])).flatten ++ last

/-- The lines of a plain dump: one internal output with priority 2. -/
def plain_lines : List (List Char) :=
  ["Output: 1 eDP-1 enabled".toList, "  priority 2".toList]

/-- The escape sequence `ESC [ 0 1 ; 3 2 m` (bold green) without its ESC byte and
its final `m`. -/
def green : List Char := "[01;32".toList

/-- The escape sequence `ESC [ 0 m` (reset) without its ESC byte and its final
`m`. -/
def reset : List Char := "[0".toList

/-- The lines of `plain_lines` with colour codes around `Output:` and before the
priority. -/
def coloured_lines : List (List Char) :=
  [ESC :: (green ++ 'm' :: ("Output:".toList
      ++ ESC :: (reset ++ 'm' :: " 1 eDP-1 enabled".toList))),
   ESC :: (green ++ 'm' :: "  priority 2".toList)]

/-- The priorities `first`, `first + 1`, ... given to the displays in their order. -/
def number_from : Int → List DisplayInfo → List (List Char × Int)
  | _, [] => []
  | first, d :: rest => (d.name, first) :: number_from (first + 1) rest

/-- The FixDecision of the specification: priority 1 for the internal display,
then 2, 3, ... for the external displays in the order of the topology. -/
def fix_decision (internal_display : DisplayInfo) (displays : List DisplayInfo) :
    List (List Char × Int) :=
  (internal_display.name, 1) :: number_from 2 (displays.filter (fun d => !d.is_internal))

/-- The directive that binds an output to a priority. -/
def directive (a : List Char × Int) : List Char :=
  " output.".toList ++ a.1 ++ ".priority.".toList ++ fmt_d a.2

/-- The command that carries one directive per assignment. -/
def render_command (decision : List (List Char × Int)) : List Char :=
  "kscreen-doctor".toList ++ (decision.map directive).flatten

/-- A name of 63 bytes, the longest that `current_output[64]` holds. -/
def long_name (k : Nat) : List Char :=
  "DP-".toList ++ List.replicate 58 'x' ++ Nat.toDigits 10 (k + 10)

/-- A dump of 27 outputs: the internal eDP-1 with priority 27, then 26 external
outputs with names of 63 bytes and the priorities 1, ..., 26. -/
def crowded_dump : List Char :=
  "Output: 1 eDP-1 enabled\n  priority 27\n".toList
    ++ (List.range 26).flatMap (fun k =>
        "Output: ".toList ++ Nat.toDigits 10 (k + 2) ++ ' ' :: long_name k
          ++ " enabled\n  priority ".toList ++ Nat.toDigits 10 (k + 1) ++ "\n".toList)

/-- The topology of `crowded_dump`. -/
def crowded_topology : List DisplayInfo :=
  { name := "eDP-1".toList, priority := 27, is_internal := true }
    :: (List.range 26).map (fun k =>
        { name := long_name k, priority := (k : Int) + 1, is_internal := false })

/-- Whether a text is empty or starts with white space: what may follow a token
that `%s` reads. -/
def starts_with_space : List Char → Bool
  | [] => true
  | c :: _ => isspace c

/-- A line of a dump, without its newline, as the amended form of the uniqueness
invariant reads it. -/
inductive DumpLine where
  /-- The line `Output: <number> <name><rest>`. -/
  | output (number name rest : List Char)
  /-- Any other line. -/
  | other (text : List Char)

/-- The bytes of the line. -/
def DumpLine.text : DumpLine → List Char
  | .output number name rest => "Output: ".toList ++ (number ++ ' ' :: (name ++ rest))
  | .other text => text

/-- The name that the line gives to an output, if it is an `Output:` line. -/
def DumpLine.announced : DumpLine → Option (List Char)
  | .output _ name _ => some name
  | .other _ => none

/-- What the amended invariant asks of a line. An `Output:` line has a number made
of digits, then a name of 1 to 63 bytes without white space or NUL, then nothing
or white space and anything. Another line does not contain `Output:`. -/
def DumpLine.valid : DumpLine → Prop
  | .output number name rest =>
      number ≠ [] ∧ (∀ c ∈ number, isdigit c = true)
        ∧ name ≠ [] ∧ name.length ≤ 63 ∧ (∀ c ∈ name, isspace c = false ∧ c ≠ NUL)
        ∧ starts_with_space rest = true
  | .other text => ¬ "Output:".toList <:+: text

/-- Whether a line is valid can be computed. -/
instance DumpLine.decidable_valid (l : DumpLine) : Decidable l.valid := by
  cases l <;> unfold DumpLine.valid <;> infer_instance

/-- The lines of `example_dump_id_first`. -/
def example_lines : List DumpLine :=
  [DumpLine.output "0".toList "HDMI-1".toList " enabled".toList,
   DumpLine.other "  priority 2".toList,
   DumpLine.output "1".toList "eDP-1".toList " enabled".toList,
   DumpLine.other "  priority 3".toList]

/-- A dump of two outputs whose names have 64 bytes and differ in the last one. -/
def cut_names_dump : List Char :=
  "Output: 1 ".toList ++ List.replicate 63 'x' ++ "a\n  priority 1\nOutput: 2 ".toList
    ++ List.replicate 63 'x' ++ "b\n  priority 2\n".toList

/-- A dump whose third line ends in an escape sequence without its final `m`:
behind the NUL of that line, `line[]` still holds the end of the second line. -/
def stale_bytes_dump : List Char :=
  ("Output: 1 DP-1\n  priority 5  DP-1\nOutput: 7 ".toList ++ ESC :: "[\n  priority 1\n".toList)

/-- What a cleaned line does to `current_output`: with `none`, the parser does not
take it for an `Output:` line; with `some name`, it does and reads that name off
it. -/
def announces (clean_line : List Char) : Option (List Char) → Prop
  | none => strstr clean_line "Output:".toList = false
  | some name =>
      strstr clean_line "Output:".toList = true ∧ name.length ≤ 63
        ∧ ∀ current_output, sscanf_output clean_line current_output = name

/-- A Dell Precision 7780 with the NVIDIA driver loaded, an NVIDIA device and no
Intel graphics on the bus, and connectors with the given status attributes. -/
def precision_host (statuses : List (List Char)) : HostEnv :=
  { sys_vendor := some "Dell Inc.\n".toList,
    product_name := some "Precision 7780\n".toList,
    nvidia_driver := true,
    lspci_nvidia := some "01:00.0 VGA compatible controller: NVIDIA Corporation\n".toList,
    lspci_intel := some [],
    drm_status := some statuses }

/-- The number of connected displays of a host: the connectors whose status
attribute is `connected`. -/
def connected_displays (host : HostEnv) : Nat :=
  match host.drm_status with
  | none => 0
  | some statuses => (statuses.filter (fun l => l = "connected".toList)).length

/-! ## Theorems -/

/-! ### The C library -/

/-- The test `strstr` finds exactly the contiguous sublists. -/
theorem strstr_iff (haystack needle : List Char) :
    strstr haystack needle = true ↔ needle <:+: haystack := by
  unfold strstr
  rw [List.any_eq_true]
  constructor
  · rintro ⟨t, ht, hp⟩
    rw [List.mem_tails] at ht
    rw [List.isPrefixOf_iff_prefix] at hp
    exact List.infix_iff_prefix_suffix.mpr ⟨t, hp, ht⟩
  · intro h
    obtain ⟨t, hp, ht⟩ := List.infix_iff_prefix_suffix.mp h
    exact ⟨t, (List.mem_tails _ _).mpr ht, List.isPrefixOf_iff_prefix.mpr hp⟩

/-- A C string is no longer than the buffer content it is read from. -/
theorem cstr_length_le (buf : List Char) : (cstr buf).length ≤ buf.length := by
  unfold cstr
  exact (List.takeWhile_sublist _).length_le

/-- A C string has no NUL byte. -/
theorem cstr_no_nul (buf : List Char) : ∀ c ∈ cstr buf, c ≠ NUL := by
  intro c hc
  have := List.mem_takeWhile_imp hc
  simpa using this

/-- Bytes other than NUL at the start of a buffer belong to its C string. -/
theorem cstr_append (a b : List Char) (ha : ∀ c ∈ a, c ≠ NUL) :
    cstr (a ++ b) = a ++ cstr b := by
  induction a with
  | nil => rfl
  | cons x a ih =>
      have hx : (x != NUL) = true := by simpa using ha x (List.mem_cons_self _ _)
      unfold cstr at ih ⊢
      simp only [List.cons_append, List.takeWhile_cons, hx, if_true]
      rw [ih (fun c hc => ha c (List.mem_cons_of_mem _ hc))]

/-- A buffer content that a NUL ends starts with its C string and a NUL. -/
theorem cstr_split : ∀ (buf behind : List Char),
    ∃ behind', buf ++ NUL :: behind = cstr buf ++ NUL :: behind' := by
  intro buf
  induction buf with
  | nil => intro behind; exact ⟨behind, rfl⟩
  | cons x buf ih =>
      intro behind
      by_cases hx : x = NUL
      · refine ⟨buf ++ NUL :: behind, ?_⟩
        simp [cstr, hx]
      · obtain ⟨behind', h⟩ := ih behind
        refine ⟨behind', ?_⟩
        have hx' : (x != NUL) = true := by simpa using hx
        unfold cstr at h ⊢
        simp only [List.cons_append, List.takeWhile_cons, hx', if_true, h]

/-- The longest run at the start of a text whose bytes all pass a test. -/
theorem takeWhile_append_break (p : Char → Bool) (t : List Char)
    (ht : ∀ c ∈ t.head?, p c = false) :
    ∀ a : List Char, (∀ c ∈ a, p c = true) → (a ++ t).takeWhile p = a := by
  intro a
  induction a with
  | nil =>
      intro _
      cases t with
      | nil => rfl
      | cons c r =>
          have := ht c (by simp)
          simp [List.takeWhile_cons, this]
  | cons x a ih =>
      intro ha
      have hx := ha x (List.mem_cons_self _ _)
      simp only [List.cons_append, List.takeWhile_cons, hx, if_true]
      rw [ih (fun c hc => ha c (List.mem_cons_of_mem _ hc))]

/-- White space before a token is skipped. -/
theorem skip_space_append (rest : List Char) (hrest : ∀ c ∈ rest.head?, isspace c = false) :
    ∀ ws : List Char, (∀ c ∈ ws, isspace c = true) → skip_space (ws ++ rest) = rest := by
  intro ws
  induction ws with
  | nil =>
      intro _
      cases rest with
      | nil => rfl
      | cons c r =>
          have := hrest c (by simp)
          simp [skip_space, List.dropWhile_cons, this]
  | cons x ws ih =>
      intro h
      have hx := h x (List.mem_cons_self _ _)
      have := ih (fun c hc => h c (List.mem_cons_of_mem _ hc))
      unfold skip_space at this ⊢
      simp only [List.cons_append, List.dropWhile_cons, hx, if_true, this]

/-- The conversion `%s` reads the token that follows the white space. -/
theorem scan_s_token (width : Option Nat) (ws tok t : List Char)
    (hws : ∀ c ∈ ws, isspace c = true)
    (htok : tok ≠ []) (hns : ∀ c ∈ tok, isspace c = false)
    (ht : starts_with_space t = true)
    (hw : ∀ n, width = some n → tok.length ≤ n) :
    scan_s width (ws ++ (tok ++ t)) = some (tok, t) := by
  obtain ⟨x, xs, rfl⟩ := List.exists_cons_of_ne_nil htok
  have hskip : skip_space (ws ++ (x :: xs ++ t)) = x :: xs ++ t :=
    skip_space_append _ (by
      intro c hc
      simp only [List.cons_append, List.head?_cons, Option.mem_def, Option.some.injEq] at hc
      rw [← hc]; exact hns x (List.mem_cons_self _ _)) ws hws
  have htake : (x :: xs ++ t).takeWhile (fun c => !isspace c) = x :: xs :=
    takeWhile_append_break (fun c => !isspace c) t (by
      intro c hc
      cases t with
      | nil => simp at hc
      | cons y r =>
          simp only [List.head?_cons, Option.mem_def, Option.some.injEq] at hc
          rw [← hc]
          simpa [starts_with_space] using ht) (x :: xs) (by
      intro c hc
      simp [hns c hc])
  unfold scan_s
  rw [hskip]
  simp only [List.cons_append] at htake ⊢
  rw [htake]
  cases width with
  | none => simp
  | some n =>
      have := hw n rfl
      simp only [List.length_cons] at this
      simp [List.take_of_length_le, this]

/-- A digit is neither white space nor a sign nor NUL. -/
theorem isdigit_facts (c : Char) (hc : isdigit c = true) :
    isspace c = false ∧ c ≠ '-' ∧ c ≠ '+' ∧ c ≠ NUL := by
  refine ⟨?_, ?_, ?_, ?_⟩
  · cases h : isspace c with
    | false => rfl
    | true =>
        simp only [isspace, Bool.or_eq_true, decide_eq_true_eq] at h
        rcases h with ((((h | h) | h) | h) | h) | h <;> (subst h; revert hc; decide)
  · intro h; subst h; revert hc; decide
  · intro h; subst h; revert hc; decide
  · intro h; subst h; revert hc; decide

/-- The conversion `%d` reads the digits that follow the white space. -/
theorem scan_d_digits (ws number t : List Char)
    (hws : ∀ c ∈ ws, isspace c = true)
    (hne : number ≠ []) (hdig : ∀ c ∈ number, isdigit c = true)
    (ht : ∀ c ∈ t.head?, isdigit c = false) :
    scan_d (ws ++ (number ++ t))
      = some (wrap32 (clamp64 (digits_value number : Nat)), t) := by
  obtain ⟨d, ds, rfl⟩ := List.exists_cons_of_ne_nil hne
  obtain ⟨hdsp, hminus, hplus, _⟩ := isdigit_facts d (hdig d (List.mem_cons_self _ _))
  have hskip : skip_space (ws ++ (d :: ds ++ t)) = d :: ds ++ t :=
    skip_space_append _ (by
      intro c hc
      simp only [List.cons_append, List.head?_cons, Option.mem_def, Option.some.injEq] at hc
      rw [← hc]; exact hdsp) ws hws
  have htake : (d :: ds ++ t).takeWhile isdigit = d :: ds :=
    takeWhile_append_break isdigit t ht (d :: ds) hdig
  have hsign : scan_sign (d :: ds ++ t) = (false, d :: ds ++ t) := by
    simp only [List.cons_append]
    unfold scan_sign
    split
    · rename_i heq
      simp only [List.cons.injEq] at heq
      exact absurd heq.1 hminus
    · rename_i heq
      simp only [List.cons.injEq] at heq
      exact absurd heq.1 hplus
    · rfl
  unfold scan_d
  simp only [hskip, hsign, htake]
  simp

/-- A decimal digit as `printf` and `grep -c` write it, read back. -/
theorem digitChar_facts : ∀ k : Nat, k < 10 →
    isdigit (Nat.digitChar k) = true ∧ (Nat.digitChar k).toNat - 48 = k := by
  intro k hk
  interval_cases k <;> exact ⟨by decide, by decide⟩

/-- The value of digits followed by one more digit. -/
theorem digits_value_concat (ds : List Char) (d : Char) :
    digits_value (ds ++ [d]) = 10 * digits_value ds + (d.toNat - 48) := by
  unfold digits_value
  rw [List.foldl_append]
  rfl

/-- The decimal digits of a number, read back, give the number. -/
theorem toDigitsCore_spec : ∀ (fuel n : Nat) (ds : List Char), n < fuel →
    ∃ pre, Nat.toDigitsCore 10 fuel n ds = pre ++ ds ∧ pre ≠ []
      ∧ (∀ c ∈ pre, isdigit c = true) ∧ digits_value pre = n := by
  intro fuel
  induction fuel with
  | zero => intro n ds h; omega
  | succ fuel ih =>
      intro n ds hn
      obtain ⟨hd1, hd2⟩ := digitChar_facts (n % 10) (Nat.mod_lt _ (by decide))
      unfold Nat.toDigitsCore
      simp only
      by_cases h0 : n / 10 = 0
      · rw [if_pos h0]
        refine ⟨[Nat.digitChar (n % 10)], rfl, by simp, ?_, ?_⟩
        · intro c hc
          rw [List.mem_singleton] at hc
          rw [hc]; exact hd1
        · have := digits_value_concat [] (Nat.digitChar (n % 10))
          simp only [List.nil_append] at this
          rw [this, hd2]
          have : digits_value [] = 0 := rfl
          rw [this]
          omega
      · rw [if_neg h0]
        obtain ⟨pre, e, _, hdig, hval⟩ := ih (n / 10) (Nat.digitChar (n % 10) :: ds)
          (by omega)
        refine ⟨pre ++ [Nat.digitChar (n % 10)], by rw [e]; simp, by simp, ?_, ?_⟩
        · intro c hc
          rcases List.mem_append.mp hc with hc | hc
          · exact hdig c hc
          · rw [List.mem_singleton] at hc
            rw [hc]; exact hd1
        · rw [digits_value_concat, hval, hd2]
          omega

/-- The decimal digits of a number: not empty, all digits, of that value. -/
theorem toDigits_spec (n : Nat) :
    Nat.toDigits 10 n ≠ [] ∧ (∀ c ∈ Nat.toDigits 10 n, isdigit c = true)
      ∧ digits_value (Nat.toDigits 10 n) = n := by
  obtain ⟨pre, e, hne, hdig, hval⟩ := toDigitsCore_spec (n + 1) n [] (by omega)
  unfold Nat.toDigits
  rw [e, List.append_nil]
  exact ⟨hne, hdig, hval⟩

/-- A number below 2^31 is stored in an `int` as it is. -/
theorem wrap32_clamp64 (n : Nat) (h : n < 2 ^ 31) : wrap32 (clamp64 (n : Nat)) = n := by
  have h1 : (n : Int) < 2147483648 := by
    have : (2 : Nat) ^ 31 = 2147483648 := by norm_num
    omega
  unfold wrap32 clamp64
  norm_num
  rw [min_eq_left (by omega), max_eq_right (by omega)]
  omega

/-- The calls of `fgets` give at least one chunk when the stream is not empty. -/
theorem fgets_all_ne_nil (size : Nat) : ∀ (stream cur : List Char),
    stream ≠ [] ∨ cur ≠ [] → fgets_all size stream cur ≠ [] := by
  intro stream
  induction stream with
  | nil =>
      intro cur h
      rcases h with h | h
      · exact absurd rfl h
      · cases cur with
        | nil => exact absurd rfl h
        | cons x xs => simp [fgets_all]
  | cons c cs ih =>
      intro cur _
      rw [fgets_all]
      split
      · simp
      · exact ih (cur ++ [c]) (Or.inr (by simp))

/-- One call of `fgets` reads a whole line when the line fits the buffer. -/
theorem fgets_all_fits (size : Nat) (rest : List Char) :
    ∀ (body cur : List Char), '\n' ∉ body → cur.length + body.length + 1 ≤ size - 1 →
      fgets_all size (body ++ '\n' :: rest) cur
        = (cur ++ body ++ ['\n']) :: fgets_all size rest [] := by
  intro body
  induction body with
  | nil => intro cur _ _; simp [fgets_all]
  | cons b body ih =>
      intro cur hnl hlen
      have hb : b ≠ '\n' := fun e => hnl (by rw [e]; exact List.mem_cons_self _ _)
      have hbody : '\n' ∉ body := fun e => hnl (List.mem_cons_of_mem _ e)
      simp only [List.length_cons] at hlen
      have hcut : ¬ (b = '\n' ∨ cur.length + 1 = size - 1) := by
        intro h
        rcases h with h | h
        · exact hb h
        · omega
      rw [List.cons_append, fgets_all, if_neg hcut,
        ih (cur ++ [b]) hbody (by simp only [List.length_append, List.length_singleton]; omega)]
      simp

/-! ### The example dump and the retry of a topology without internal display -/

/-- Claim C2, as stated, fails: the four lines of the example, written with the
name before the number, are parsed into no record at all (the conversion `%*d`
fails on the name, so `current_output` stays empty), and `apply_kscreen_fix`
returns -1 without building a command. -/
theorem example_dump_name_first_yields_no_record :
    parse_kscreen_output (some example_dump_name_first) = .ok (0, [])
    ∧ apply_kscreen_fix false { kscreen_pipe := some example_dump_name_first,
                                system := fun _ => 0 }
      = .ok { ret := -1, command := none, system_calls := [] } := by
  constructor <;> rfl

/-- Claim C2, amended: with the number before the name on the `Output:` lines, the
four lines are parsed into exactly two records, in parse order HDMI-1 (priority 2,
external) and eDP-1 (priority 3, internal), and `apply_kscreen_fix` builds the
command that gives eDP-1 priority 1 and HDMI-1 priority 2. -/
theorem example_dump_id_first_parse_and_fix :
    parse_kscreen_output (some example_dump_id_first)
      = .ok (0, [{ name := "HDMI-1".toList, priority := 2, is_internal := false },
                 { name := "eDP-1".toList, priority := 3, is_internal := true }])
    ∧ apply_kscreen_fix false { kscreen_pipe := some example_dump_id_first,
                                system := fun _ => 0 }
      = .ok { ret := 0,
              command := some
                "kscreen-doctor output.eDP-1.priority.1 output.HDMI-1.priority.2".toList,
              system_calls :=
                ["kscreen-doctor output.eDP-1.priority.1 output.HDMI-1.priority.2".toList] } := by
  constructor <;> rfl

/-- Claim C3, as stated, fails: the dump has one external display and no internal
one, `max_retries` is 3, and `main` makes a second and a third attempt with a
sleep before each of them, then returns -1. -/
theorem no_internal_display_is_retried :
    parse_kscreen_output external_only.kscreen_pipe
      = .ok (0, [{ name := "HDMI-1".toList, priority := 1, is_internal := false }])
    ∧ main forced_options bare_host (fun _ => external_only) (fun _ => false)
      = .ok { ret := -1, attempts := 3, running := true,
              events := [Event.attempt 1, Event.sleep 5, Event.attempt 2, Event.sleep 5,
                         Event.attempt 3] } := by
  constructor <;> rfl

/-! ### The eligibility gate -/

/-- The discrete-GPU check passes exactly when the driver is loaded, the first
`lspci` pipeline prints something and the second prints nothing or cannot be
started. -/
theorem check_nvidia_discrete_iff (host : HostEnv) :
    check_nvidia_discrete host = true ↔
      host.nvidia_driver = true
        ∧ (∃ out, host.lspci_nvidia = some out ∧ out ≠ [])
        ∧ (host.lspci_intel = none ∨ host.lspci_intel = some []) := by
  have hempty : ∀ out : List Char, (fgets_all 512 out []).isEmpty = true ↔ out = [] := by
    intro out
    constructor
    · intro h
      by_contra hne
      exact fgets_all_ne_nil 512 out [] (Or.inl hne) (List.isEmpty_iff.mp h)
    · intro h; rw [h]; rfl
  unfold check_nvidia_discrete
  cases hdrv : host.nvidia_driver with
  | false => simp
  | true =>
      cases hnv : host.lspci_nvidia with
      | none => simp
      | some out =>
          by_cases hout : out = []
          · subst hout
            simp [fgets_all]
          · have h1 : (fgets_all 512 out []).isEmpty = false := by
              cases h : (fgets_all 512 out []).isEmpty with
              | false => rfl
              | true => exact absurd ((hempty out).mp h) hout
            cases hin : host.lspci_intel with
            | none => simp [h1, hout]
            | some out' =>
                by_cases hout' : out' = []
                · subst hout'
                  simp [h1, hout, fgets_all]
                · have h2 : (fgets_all 512 out' []).isEmpty = false := by
                    cases h : (fgets_all 512 out' []).isEmpty with
                    | false => rfl
                    | true => exact absurd ((hempty out').mp h) hout'
                  simp [h1, h2, hout, hout']

/-- The count that `count_connected_displays` returns is the number of status lines
in which `connected` occurs. -/
theorem count_connected_displays_eq (host : HostEnv) (statuses : List (List Char))
    (h : host.drm_status = some statuses) (hsmall : statuses.length < 2 ^ 31) :
    count_connected_displays host
      = ((statuses.filter (fun l => strstr l "connected".toList)).length : Nat) := by
  have hle := List.length_filter_le (fun l => strstr l "connected".toList) statuses
  generalize hn : (statuses.filter (fun l => strstr l "connected".toList)).length = n at hle
  obtain ⟨hne, hdig, hval⟩ := toDigits_spec n
  have hlen : (Nat.toDigits 10 n).length ≤ 10 := by
    unfold Nat.toDigits
    exact Nat.toDigitsCore_length 10 (by decide) _ _ 10
      (by have : (2 : Nat) ^ 31 = 2147483648 := by norm_num
          omega) (by decide)
  have hnl : '\n' ∉ Nat.toDigits 10 n := by
    intro hm
    have := hdig _ hm
    revert this
    decide
  have hnul : ∀ c ∈ Nat.toDigits 10 n, c ≠ NUL := fun c hc => (isdigit_facts c (hdig c hc)).2.2.2
  have hchunks : fgets_all 32 (grep_c "connected".toList statuses) []
      = [Nat.toDigits 10 n ++ ['\n']] := by
    unfold grep_c
    rw [hn]
    have := fgets_all_fits 32 [] (Nat.toDigits 10 n) [] hnl (by simp only [List.length_nil]; omega)
    simpa [fgets_all] using this
  have hcstr : cstr (Nat.toDigits 10 n ++ ['\n']) = Nat.toDigits 10 n ++ ['\n'] := by
    rw [cstr_append _ _ hnul]
    rfl
  have hscan := scan_d_digits [] (Nat.toDigits 10 n) ['\n'] (by simp) hne hdig (by decide)
  unfold count_connected_displays
  rw [h]
  simp only [hchunks, hcstr]
  unfold atoi
  simp only [List.nil_append] at hscan
  rw [hscan]
  simp only
  rw [hval, wrap32_clamp64 n (by omega)]

/-- Claim C10, evaluated. `should_apply_fix` returns true exactly when `force` is
set or its three checks pass, it runs the checks in order and stops at the first
that fails, and with `force` it runs none, so `main` goes on to the retry loop
also on a host that fails all three. The identity check is "vendor contains Dell
and product contains Precision 7780" and the GPU check is as the specification
has it; both pass on `precision_host` and fail on hosts that differ from it in
one input. The third check is not the claim's "connected-display count >= 2": the
count is what `grep -c connected` prints, and `disconnected` contains
`connected`. On a Precision 7780 with one connected and one disconnected
connector the count is 2 and `should_apply_fix` returns true without `force`,
with a single connected display. -/
theorem should_apply_fix_counts_disconnected :
    (∀ (force : Bool) (host : HostEnv),
      (should_apply_fix force host).1 = true ↔
        (force = true ∨ (check_dell_precision_7780 host = true
          ∧ check_nvidia_discrete host = true ∧ 2 ≤ count_connected_displays host)))
    ∧ (∀ host : HostEnv, check_dell_precision_7780 host = true ↔
        ("Dell".toList <:+: host_vendor host
          ∧ "Precision 7780".toList <:+: host_product host))
    ∧ (∀ host : HostEnv, check_nvidia_discrete host = true ↔
        host.nvidia_driver = true
          ∧ (∃ out, host.lspci_nvidia = some out ∧ out ≠ [])
          ∧ (host.lspci_intel = none ∨ host.lspci_intel = some []))
    ∧ (∀ (host : HostEnv) (statuses : List (List Char)),
        host.drm_status = some statuses → statuses.length < 2 ^ 31 →
        count_connected_displays host
          = ((statuses.filter (fun l => strstr l "connected".toList)).length : Nat))
    ∧ (∀ host : HostEnv, should_apply_fix true host = (true, []))
    ∧ (∀ host : HostEnv, check_dell_precision_7780 host = false →
        should_apply_fix false host = (false, [Gate.host_identity]))
    ∧ (∀ host : HostEnv, check_dell_precision_7780 host = true →
        check_nvidia_discrete host = false →
        should_apply_fix false host = (false, [Gate.host_identity, Gate.discrete_gpu]))
    ∧ (∀ host : HostEnv, check_dell_precision_7780 host = true →
        check_nvidia_discrete host = true → count_connected_displays host < 2 →
        should_apply_fix false host
          = (false, [Gate.host_identity, Gate.discrete_gpu, Gate.display_count]))
    ∧ (∀ (o : Options) (host : HostEnv) (world : Nat → AttemptEnv) (signal : Nat → Bool),
        o.force = true → main o host world signal = run_attempts o world signal)
    ∧ (∀ (o : Options) (host : HostEnv) (world : Nat → AttemptEnv) (signal : Nat → Bool),
        (should_apply_fix o.force host).1 = false →
        main o host world signal
          = .ok { ret := 0, attempts := 0, running := true, events := [] })
    ∧ (host_vendor (precision_host []) = "Dell Inc.".toList
        ∧ host_product (precision_host []) = "Precision 7780".toList
        ∧ count_connected_displays (precision_host []) = 0
        ∧ count_connected_displays (precision_host ["connected".toList]) = 1
        ∧ count_connected_displays
            (precision_host ["connected".toList, "unknown".toList, "connected".toList]) = 2)
    ∧ should_apply_fix false (precision_host ["connected".toList, "connected".toList])
        = (true, [Gate.host_identity, Gate.discrete_gpu, Gate.display_count])
    ∧ should_apply_fix false (precision_host ["connected".toList])
        = (false, [Gate.host_identity, Gate.discrete_gpu, Gate.display_count])
    ∧ should_apply_fix false
        { precision_host ["connected".toList, "connected".toList] with
          lspci_intel := some "00:02.0 VGA compatible controller: Intel Corporation\n".toList }
        = (false, [Gate.host_identity, Gate.discrete_gpu])
    ∧ should_apply_fix false
        { precision_host ["connected".toList, "connected".toList] with
          product_name := some "Precision 7680\n".toList }
        = (false, [Gate.host_identity])
    ∧ should_apply_fix false bare_host = (false, [Gate.host_identity])
    ∧ connected_displays (precision_host ["connected".toList, "disconnected".toList]) = 1
    ∧ count_connected_displays (precision_host ["connected".toList, "disconnected".toList])
        = 2
    ∧ should_apply_fix false (precision_host ["connected".toList, "disconnected".toList])
        = (true, [Gate.host_identity, Gate.discrete_gpu, Gate.display_count]) := by
  refine ⟨?_, ?_, check_nvidia_discrete_iff, count_connected_displays_eq, ?_, ?_, ?_, ?_,
    ?_, ?_, ?_, ?_, ?_, ?_, ?_, ?_, ?_, ?_, ?_⟩
  · intro force host
    unfold should_apply_fix
    cases force <;> cases h1 : check_dell_precision_7780 host <;>
      cases h2 : check_nvidia_discrete host <;>
      by_cases h3 : count_connected_displays host < 2 <;> simp [h3]
    omega
  · intro host
    unfold check_dell_precision_7780
    rw [← strstr_iff, ← strstr_iff]
    cases strstr (host_vendor host) "Dell".toList <;>
      cases strstr (host_product host) "Precision 7780".toList <;> simp
  · intro host; rfl
  · intro host h1; simp [should_apply_fix, h1]
  · intro host h1 h2; simp [should_apply_fix, h1, h2]
  · intro host h1 h2 h3; simp [should_apply_fix, h1, h2, h3]
  · intro o host world signal h
    simp [main, should_apply_fix, h]
  · intro o host world signal h
    simp [main, h]
  · refine ⟨?_, ?_, ?_, ?_, ?_⟩ <;> rfl
  all_goals rfl

/-! ### The retry loop -/

/-- The events of attempts `first`, ..., `first + count - 1`, sleeps between. -/
theorem intersperse_range_succ (sep : Event) (first count : Nat) :
    List.intersperse sep ((List.range' first (count + 2)).map Event.attempt)
      = Event.attempt first :: sep
          :: List.intersperse sep ((List.range' (first + 1) (count + 1)).map Event.attempt) := by
  simp [List.range', List.intersperse]

/-- Running the loop from a state with `j` attempts to go: the first `j - 1` calls
fail, the last one succeeds or uses up `max_retries`. -/
theorem retry_loop_run (max_retries retry_delay : Int) (call : Nat → Except Fault Int)
    (signal : Nat → Bool) :
    ∀ (j fuel : Nat) (s : LoopState), j < fuel → s.result ≠ 0 →
      (∀ i, s.attempts ≤ i → i + 1 < s.attempts + j → ∃ r, call i = .ok r ∧ r ≠ 0) →
      ((s.attempts + j : Nat) : Int) ≤ max_retries ∨ j = 0 →
      (j = 0 → max_retries ≤ (s.attempts : Int)) →
      (0 < j → ∃ r, call (s.attempts + j - 1) = .ok r
          ∧ (r = 0 ∨ ((s.attempts + j : Nat) : Int) = max_retries)) →
      ∃ s', retry_loop max_retries retry_delay call signal fuel s = .ok s'
        ∧ s'.attempts = s.attempts + j
        ∧ s'.events = s.events ++ List.intersperse (Event.sleep retry_delay)
            ((List.range' (s.attempts + 1) j).map Event.attempt)
        ∧ (0 < j → call (s.attempts + j - 1) = .ok s'.result)
        ∧ (j = 0 → s'.result = s.result) := by
  intro j
  induction j with
  | zero =>
      intro fuel s hfuel hres _ _ hmax _
      obtain ⟨f, rfl⟩ : ∃ f, fuel = f + 1 := ⟨fuel - 1, by omega⟩
      have hm := hmax rfl
      by_cases hsig : signal s.attempts = true
      · refine ⟨signal_handler s, ?_, rfl, ?_, ?_, ?_⟩
        · simp only [retry_loop, hsig, if_true]
          have : ¬ (((signal_handler s).attempts : Int) < max_retries
              ∧ (signal_handler s).result ≠ 0) := by
            simp only [signal_handler]; omega
          rw [if_neg this]
        · simp [signal_handler]
        · intro h; omega
        · intro _; rfl
      · refine ⟨s, ?_, rfl, ?_, ?_, ?_⟩
        · simp only [retry_loop, hsig]
          have : ¬ ((s.attempts : Int) < max_retries ∧ s.result ≠ 0) := by omega
          simp [this]
        · simp
        · intro h; omega
        · intro _; rfl
  | succ j ih =>
      intro fuel s hfuel hres hfail hroom _ hlast
      obtain ⟨f, rfl⟩ : ∃ f, fuel = f + 1 := ⟨fuel - 1, by omega⟩
      have hroom : ((s.attempts + (j + 1) : Nat) : Int) ≤ max_retries := by
        rcases hroom with h | h
        · exact h
        · omega
      -- the state after the signal handler may have run
      obtain ⟨s1, hs1, ha1, hr1, he1⟩ : ∃ s1 : LoopState,
          (if signal s.attempts then signal_handler s else s) = s1
          ∧ s1.attempts = s.attempts ∧ s1.result = s.result ∧ s1.events = s.events := by
        by_cases hsig : signal s.attempts = true
        · exact ⟨signal_handler s, by simp [hsig], rfl, rfl, rfl⟩
        · exact ⟨s, by simp [hsig], rfl, rfl, rfl⟩
      have hcond : (s1.attempts : Int) < max_retries ∧ s1.result ≠ 0 := by
        rw [ha1, hr1]; exact ⟨by push_cast at hroom ⊢; omega, hres⟩
      cases j with
      | zero =>
          obtain ⟨r, hcall, hr⟩ := hlast (by omega)
          have hcall : call s.attempts = .ok r := by simpa using hcall
          by_cases hr0 : r = 0
          · refine ⟨{ s1 with attempts := s1.attempts + 1, result := r,
                              events := s1.events ++ [Event.attempt (s1.attempts + 1)] },
              ?_, ?_, ?_, ?_, ?_⟩
            · simp only [retry_loop, hs1]
              rw [if_pos hcond, ha1, hcall]
              simp only [hr0, if_true]
            · simp [ha1]
            · simp [ha1, he1, List.range']
            · intro _; simpa [hr0] using hcall
            · intro h; omega
          · have hfull : ((s.attempts + 1 : Nat) : Int) = max_retries := by
              rcases hr with h | h
              · exact absurd h hr0
              · simpa using h
            obtain ⟨s', hrun, hatt, hev, _, hres'⟩ :=
              ih f { s1 with attempts := s1.attempts + 1, result := r,
                             events := s1.events ++ [Event.attempt (s1.attempts + 1)] }
                (by omega) hr0 (by intro i h1 h2; omega) (Or.inr rfl)
                (by intro _; simp only [ha1]; omega) (by intro h; omega)
            refine ⟨s', ?_, ?_, ?_, ?_, ?_⟩
            · simp only [retry_loop, hs1]
              rw [if_pos hcond, ha1, hcall]
              have : ¬ (((s.attempts + 1 : Nat) : Int) < max_retries) := by omega
              simp only [hr0, if_false, this]
              simpa [ha1] using hrun
            · simpa [ha1] using hatt
            · simpa [ha1, he1, List.range'] using hev
            · intro _
              have := hres' rfl
              simp only at this
              simpa [this] using hcall
            · intro h; omega
      | succ j =>
          obtain ⟨r, hcall, hr0⟩ := hfail s.attempts (le_refl _) (by omega)
          have hmore : ((s.attempts + 1 : Nat) : Int) < max_retries := by
            push_cast at hroom ⊢; omega
          obtain ⟨s', hrun, hatt, hev, hres', _⟩ :=
            ih f { s1 with attempts := s1.attempts + 1, result := r,
                           events := s1.events ++ [Event.attempt (s1.attempts + 1)]
                             ++ [Event.sleep retry_delay] }
              (by omega) hr0
              (by
                intro i h1 h2
                simp only [ha1] at h1 h2
                exact hfail i (by omega) (by omega))
              (Or.inl (by simp only [ha1]; push_cast at hroom ⊢; omega))
              (by intro h; omega)
              (by
                intro _
                obtain ⟨r', hc, hr'⟩ := hlast (by omega)
                refine ⟨r', ?_, ?_⟩
                · simp only [ha1]
                  have : s.attempts + 1 + (j + 1) - 1 = s.attempts + (j + 1 + 1) - 1 := by omega
                  rw [this]; exact hc
                · rcases hr' with h | h
                  · exact Or.inl h
                  · right; simp only [ha1]; push_cast at h ⊢; omega)
          refine ⟨s', ?_, ?_, ?_, ?_, ?_⟩
          · simp only [retry_loop, hs1]
            rw [if_pos hcond, ha1, hcall]
            simp only [hr0, if_false, hmore, if_true]
            simpa [ha1] using hrun
          · simp only [ha1] at hatt; omega
          · rw [hev, intersperse_range_succ]
            simp [ha1, he1]
          · intro _
            have := hres' (by omega)
            simp only [ha1] at this
            have e : s.attempts + 1 + (j + 1) - 1 = s.attempts + (j + 1 + 1) - 1 := by omega
            rw [← e]; exact this
          · intro h; omega

/-- The attempts among the events of `count` attempts. -/
theorem filter_attempt_intersperse (sep_delay : Int) (count : Nat) :
    ∀ first : Nat,
      ((List.intersperse (Event.sleep sep_delay)
          ((List.range' first count).map Event.attempt)).filter Event.is_attempt).length = count
      ∧ ((List.intersperse (Event.sleep sep_delay)
          ((List.range' first count).map Event.attempt)).filter Event.is_sleep).length = count - 1
      ∧ (0 < count → (List.intersperse (Event.sleep sep_delay)
          ((List.range' first count).map Event.attempt)).getLast?
            = some (Event.attempt (first + count - 1))) := by
  induction count with
  | zero => intro first; simp
  | succ n ih =>
      intro first
      cases n with
      | zero => simp [List.range', Event.is_attempt, Event.is_sleep]
      | succ n =>
          obtain ⟨h1, h2, h3⟩ := ih (first + 1)
          rw [intersperse_range_succ]
          refine ⟨?_, ?_, ?_⟩
          · simpa [List.filter_cons, Event.is_attempt] using h1
          · simpa [List.filter_cons, Event.is_sleep] using h2
          · intro _
            have h3 := h3 (by omega)
            rw [List.getLast?_cons_cons, List.getLast?_cons, h3]
            simp only [Option.getD_some]
            congr 2
            omega

/-- The run of the retry loop of `main` when the calls of `apply_display_fix`
return `out 0`, `out 1`, ...: if the first `m - 1` calls fail and call `m` succeeds
or is call number `max_retries`, the loop makes exactly `m` calls. -/
theorem run_attempts_of_calls (o : Options) (world : Nat → AttemptEnv) (signal : Nat → Bool)
    (out : Nat → FixOutcome) (hout : ∀ k, apply_display_fix o (world k) = .ok (out k))
    (m : Nat) (hm1 : 1 ≤ m) (hm : (m : Int) ≤ o.max_retries)
    (hfail : ∀ i, i + 1 < m → (out i).ret ≠ 0)
    (hlast : (out (m - 1)).ret = 0 ∨ (m : Int) = o.max_retries) :
    ∃ r, run_attempts o world signal = .ok r ∧ r.attempts = m
      ∧ r.events = attempt_events o.retry_delay m ∧ r.ret = (out (m - 1)).ret := by
  have hcall : ∀ k, (fun k => (apply_display_fix o (world k)).map (fun out => out.ret)) k
      = Except.ok (out k).ret := by
    intro k
    simp only [hout k]
    rfl
  obtain ⟨s', hrun, hatt, hev, hres, _⟩ :=
    retry_loop_run o.max_retries o.retry_delay
      (fun k => (apply_display_fix o (world k)).map (fun out => out.ret)) signal
      m (o.max_retries.toNat + 1)
      { attempts := 0, result := -1, running := true, events := [] }
      (by omega) (by decide)
      (by
        intro i _ h2
        exact ⟨(out i).ret, hcall i, hfail i (by simpa using h2)⟩)
      (Or.inl (by simpa using hm))
      (by intro h; omega)
      (by
        intro _
        refine ⟨(out (m - 1)).ret, ?_, ?_⟩
        · simpa using hcall (m - 1)
        · simpa using hlast)
  refine ⟨{ ret := s'.result, attempts := s'.attempts, running := s'.running,
            events := s'.events }, ?_, ?_, ?_, ?_⟩
  · unfold run_attempts
    rw [hrun]
  · simpa using hatt
  · simpa [attempt_events] using hev
  · have h := hres (by omega)
    have h2 : Except.ok (out (m - 1)).ret = (Except.ok s'.result : Except Fault Int) := by
      rw [← h]
      simpa using (hcall (m - 1)).symm
    exact (Except.ok.inj h2).symm

/-- Claim C4: with `max_retries = n >= 1` and calls of `apply_display_fix` that all
return, the retry loop of `main` terminates after at least one and at most `n`
attempts; sleeps occur only between two attempts, so there is one sleep fewer
than attempts and none after the last; it stops at the first attempt that returns
0, and it stops earlier than attempt `n` only on such a return. If every call
fails it makes exactly `n` attempts, sleeps `n - 1` times and `main` returns a
nonzero value. -/
theorem retry_loop_bounded (o : Options) (host : HostEnv) (world : Nat → AttemptEnv)
    (signal : Nat → Bool) (out : Nat → FixOutcome)
    (hn : 1 ≤ o.max_retries)
    (hgate : (should_apply_fix o.force host).1 = true)
    (hout : ∀ k, apply_display_fix o (world k) = .ok (out k)) :
    ∃ r, main o host world signal = .ok r
      ∧ 1 ≤ r.attempts ∧ (r.attempts : Int) ≤ o.max_retries
      ∧ r.events = attempt_events o.retry_delay r.attempts
      ∧ (r.events.filter Event.is_attempt).length = r.attempts
      ∧ (r.events.filter Event.is_sleep).length = r.attempts - 1
      ∧ r.events.getLast? = some (Event.attempt r.attempts)
      ∧ r.ret = (out (r.attempts - 1)).ret
      ∧ (∀ i, i + 1 < r.attempts → (out i).ret ≠ 0)
      ∧ (r.ret ≠ 0 → (r.attempts : Int) = o.max_retries)
      ∧ ((∀ k, (out k).ret ≠ 0) →
          (r.attempts : Int) = o.max_retries
          ∧ (r.events.filter Event.is_sleep).length = o.max_retries.toNat - 1
          ∧ r.ret ≠ 0) := by
  have hmain : main o host world signal = run_attempts o world signal := by
    simp [main, hgate]
  -- the number of attempts: up to the first success, or `max_retries`
  obtain ⟨m, hm1, hm, hfail, hlast⟩ : ∃ m : Nat, 1 ≤ m ∧ (m : Int) ≤ o.max_retries
      ∧ (∀ i, i + 1 < m → (out i).ret ≠ 0)
      ∧ ((out (m - 1)).ret = 0 ∨ (m : Int) = o.max_retries) := by
    by_cases h : ∃ k : Nat, (k : Int) < o.max_retries ∧ (out k).ret = 0
    · refine ⟨Nat.find h + 1, by omega, ?_, ?_, ?_⟩
      · have := (Nat.find_spec h).1
        push_cast; omega
      · intro i hi hz
        have hlt : i < Nat.find h := by omega
        refine Nat.find_min h hlt ⟨?_, hz⟩
        have := (Nat.find_spec h).1
        omega
      · left
        simpa using (Nat.find_spec h).2
    · refine ⟨o.max_retries.toNat, by omega, by omega, ?_, Or.inr (by omega)⟩
      intro i hi hz
      exact h ⟨i, by omega, hz⟩
  obtain ⟨r, hrun, hatt, hev, hret⟩ :=
    run_attempts_of_calls o world signal out hout m hm1 hm hfail hlast
  obtain ⟨c1, c2, c3⟩ := filter_attempt_intersperse o.retry_delay m 1
  have hsleeps : (r.events.filter Event.is_sleep).length = r.attempts - 1 := by
    rw [hev, hatt]; exact c2
  have hstop : r.ret ≠ 0 → (r.attempts : Int) = o.max_retries := by
    intro hne
    rw [hatt]
    rcases hlast with h | h
    · exact absurd (hret.trans h) hne
    · exact h
  refine ⟨r, hmain.trans hrun, by omega, by rw [hatt]; exact hm, by rw [hev, hatt], ?_,
    hsleeps, ?_, by rw [hret, hatt], by rw [hatt]; exact hfail, hstop, ?_⟩
  · rw [hev, hatt]; exact c1
  · rw [hev, hatt]
    have := c3 (by omega)
    simpa [attempt_events, Nat.add_comm] using this
  · intro hall
    have hne : r.ret ≠ 0 := by rw [hret]; exact hall _
    have hfull := hstop hne
    refine ⟨hfull, ?_, hne⟩
    rw [hsleeps]
    omega

/-- Claim C4 at `max_retries = 3` with `kscreen-doctor` failing to start on every
attempt: three attempts, two sleeps, return value -1. -/
theorem retry_loop_bounded_witness :
    (1 : Int) ≤ forced_options.max_retries
    ∧ (should_apply_fix forced_options.force bare_host).1 = true
    ∧ ∃ r, main forced_options bare_host (fun _ => no_pipe) (fun _ => false) = .ok r
        ∧ (r.attempts : Int) = 3
        ∧ (r.events.filter Event.is_sleep).length = 2
        ∧ r.ret ≠ 0 := by
  obtain ⟨r, hr, _, _, _, _, _, _, _, _, _, hall⟩ :=
    retry_loop_bounded forced_options bare_host (fun _ => no_pipe) (fun _ => false)
      (fun _ => { ret := -1, command := none, system_calls := [] })
      (by decide) rfl (fun _ => rfl)
  obtain ⟨h1, h2, h3⟩ := hall (fun _ => by decide)
  exact ⟨by decide, rfl, r, hr, h1, h2, h3⟩

/-! ### Topologies without an internal display -/

/-- Without an internal display `apply_kscreen_fix` gives up with -1 before it
builds a command. -/
theorem fix_displays_no_internal (dry_run : Bool) (system : List Char → Int)
    (displays : List DisplayInfo) (h : ∀ d ∈ displays, d.is_internal = false) :
    fix_displays dry_run system displays
      = .ok { ret := -1, command := none, system_calls := [] } := by
  unfold fix_displays
  split
  · rfl
  · have hfind : displays.find? (fun d => d.is_internal) = none := by
      rw [List.find?_eq_none]
      intro d hd
      simp [h d hd]
    simp only [hfind]

/-- Claim C3, amended: when the parsed topology has no internal record, whatever
its external records, `apply_kscreen_fix` returns -1 without building or running
a command, and the retry loop treats this as a failed attempt: if every attempt
sees such a topology, `main` makes exactly `max_retries` attempts with a sleep
between two consecutive ones and returns -1. -/
theorem no_internal_display_fails (o : Options) (host : HostEnv) (world : Nat → AttemptEnv)
    (signal : Nat → Bool)
    (hn : 1 ≤ o.max_retries)
    (hgate : (should_apply_fix o.force host).1 = true)
    (hmode : o.mode = FixMode.MODE_AUTO ∨ o.mode = FixMode.MODE_KSCREEN)
    (hparse : ∀ k, ∃ displays,
      parse_kscreen_output (world k).kscreen_pipe = .ok (0, displays)
      ∧ ∀ d ∈ displays, d.is_internal = false) :
    (∀ k, apply_kscreen_fix o.dry_run (world k)
        = .ok { ret := -1, command := none, system_calls := [] })
    ∧ ∃ r, main o host world signal = .ok r
        ∧ r.ret = -1
        ∧ (r.attempts : Int) = o.max_retries
        ∧ r.events = attempt_events o.retry_delay r.attempts
        ∧ (r.events.filter Event.is_sleep).length = o.max_retries.toNat - 1 := by
  have hfix : ∀ k, apply_kscreen_fix o.dry_run (world k)
      = .ok { ret := -1, command := none, system_calls := [] } := by
    intro k
    obtain ⟨displays, hp, hext⟩ := hparse k
    unfold apply_kscreen_fix
    rw [hp]
    simp only [lt_self_iff_false, if_false]
    exact fix_displays_no_internal _ _ _ hext
  have hout : ∀ k, apply_display_fix o (world k)
      = .ok ((fun _ => { ret := -1, command := none, system_calls := [] }) k) := by
    intro k
    unfold apply_display_fix
    rcases hmode with h | h <;> rw [h] <;> exact hfix k
  refine ⟨hfix, ?_⟩
  have hmain : main o host world signal = run_attempts o world signal := by
    simp [main, hgate]
  obtain ⟨r, hrun, hatt, hev, hret⟩ :=
    run_attempts_of_calls o world signal _ hout o.max_retries.toNat (by omega) (by omega)
      (by intro i _; decide) (Or.inr (by omega))
  obtain ⟨_, c2, _⟩ := filter_attempt_intersperse o.retry_delay o.max_retries.toNat 1
  refine ⟨r, hmain.trans hrun, hret, by rw [hatt]; omega, by rw [hev, hatt], ?_⟩
  rw [hev]
  exact c2

/-- Claim C3, amended, at `max_retries = 3` with one external display on every
attempt. -/
theorem no_internal_display_fails_witness :
    apply_kscreen_fix forced_options.dry_run external_only
        = .ok { ret := -1, command := none, system_calls := [] }
    ∧ ∃ r, main forced_options bare_host (fun _ => external_only) (fun _ => false) = .ok r
        ∧ r.ret = -1
        ∧ (r.attempts : Int) = forced_options.max_retries
        ∧ r.events = attempt_events forced_options.retry_delay r.attempts
        ∧ (r.events.filter Event.is_sleep).length = forced_options.max_retries.toNat - 1 := by
  have h := no_internal_display_fails forced_options bare_host (fun _ => external_only)
    (fun _ => false) (by decide) rfl (Or.inl rfl)
    (fun _ => ⟨[{ name := "HDMI-1".toList, priority := 1, is_internal := false }], rfl,
      by decide⟩)
  exact ⟨h.1 0, h.2⟩

/-! ### The records of a parse -/

/-- Claim C6, as stated, fails: the parser removes no duplicate. A dump in which
two outputs carry the name DP-1 gives two records named DP-1, and so does a dump
whose second `Output:` line carries no name, because the failed `sscanf` keeps the
name of the block before. -/
theorem parse_keeps_duplicate_names :
    parse_kscreen_output (some same_name_dump)
      = .ok (0, [{ name := "DP-1".toList, priority := 1, is_internal := false },
                 { name := "DP-1".toList, priority := 2, is_internal := false }])
    ∧ parse_kscreen_output (some nameless_output_dump)
      = .ok (0, [{ name := "DP-1".toList, priority := 1, is_internal := false },
                 { name := "DP-1".toList, priority := 2, is_internal := false }]) := by
  constructor <;> rfl


/-! ### ANSI colour codes -/

/-- The inner `while` of the stripping loop runs to the `m` that ends the escape
sequence, and the `i++` of the `for` steps over it. -/
theorem strip_loop_skip (rest : List Char) (j : Nat) (acc : List Char) :
    ∀ body : List Char, (∀ b ∈ body, b ≠ 'm' ∧ b ≠ NUL) →
      strip_loop true (body ++ 'm' :: rest) j acc = strip_loop false rest j acc := by
  intro body
  induction body with
  | nil => intro _; simp [strip_loop]
  | cons b body ih =>
      intro h
      have hb : b ≠ NUL ∧ b ≠ 'm' :=
        ⟨(h b (List.mem_cons_self _ _)).2, (h b (List.mem_cons_self _ _)).1⟩
      simp only [List.cons_append, strip_loop, if_pos hb]
      exact ih (fun x hx => h x (List.mem_cons_of_mem _ hx))

/-- The stripping loop gives the plain line when the coloured line fits the
buffer: it stops on the NUL behind the line, whatever the array holds behind that
NUL. -/
theorem strip_loop_colorized {plain coloured : List Char} (h : Colorized plain coloured) :
    (∀ c ∈ coloured, c ≠ NUL) →
    ∀ (behind : List Char) (j : Nat) (acc : List Char), j + coloured.length ≤ 1023 →
      strip_loop false (coloured ++ NUL :: behind) j acc = .ok (acc ++ plain) := by
  induction h with
  | nil => intro _ behind j acc _; simp [strip_loop]
  | keep c plain coloured hc _ ih =>
      intro hnul behind j acc hj
      simp only [List.length_cons] at hj
      have hgo : c ≠ NUL ∧ j < 1024 - 1 := ⟨hnul c (List.mem_cons_self _ _), by omega⟩
      rw [List.cons_append, strip_loop, if_pos hgo, if_neg hc,
        ih (fun x hx => hnul x (List.mem_cons_of_mem _ hx)) behind (j + 1) (acc ++ [c])
          (by omega)]
      simp
  | esc body plain coloured hb _ ih =>
      intro hnul behind j acc hj
      simp only [List.length_cons, List.length_append] at hj
      have hgo : ESC ≠ NUL ∧ j < 1024 - 1 := ⟨by decide, by omega⟩
      rw [List.cons_append, strip_loop, if_pos hgo, if_pos rfl, List.append_assoc,
        List.cons_append, strip_loop_skip (coloured ++ NUL :: behind) j acc body hb]
      exact ih (fun x hx => hnul x (List.mem_cons_of_mem _
        (List.mem_append_right _ (List.mem_cons_of_mem _ hx)))) behind j acc (by omega)

/-- A plain line has no ESC byte. -/
theorem Colorized.plain_no_esc {plain coloured : List Char} (h : Colorized plain coloured) :
    ∀ c ∈ plain, c ≠ ESC := by
  induction h with
  | nil => intro c hc; simp at hc
  | keep c plain coloured hc _ ih =>
      intro x hx
      rcases List.mem_cons.mp hx with hx | hx
      · rw [hx]; exact hc
      · exact ih x hx
  | esc body plain coloured _ _ ih => exact ih

/-- A line without ESC byte is its own coloured variant. -/
theorem Colorized.of_no_esc : ∀ plain : List Char, (∀ c ∈ plain, c ≠ ESC) →
    Colorized plain plain := by
  intro plain
  induction plain with
  | nil => intro _; exact Colorized.nil
  | cons c plain ih =>
      intro h
      exact Colorized.keep c plain plain (h c (List.mem_cons_self _ _))
        (ih (fun x hx => h x (List.mem_cons_of_mem _ hx)))

/-- The plain line is no longer than the coloured one and has only bytes of it. -/
theorem Colorized.length_le {plain coloured : List Char} (h : Colorized plain coloured) :
    plain.length ≤ coloured.length ∧ ∀ c ∈ plain, c ∈ coloured := by
  induction h with
  | nil => simp
  | keep c plain coloured _ _ ih =>
      refine ⟨by simp only [List.length_cons]; omega, ?_⟩
      intro x hx
      rcases List.mem_cons.mp hx with hx | hx
      · rw [hx]; exact List.mem_cons_self _ _
      · exact List.mem_cons_of_mem _ (ih.2 x hx)
  | esc body plain coloured _ _ ih =>
      refine ⟨by simp only [List.length_cons, List.length_append]; omega, ?_⟩
      intro x hx
      exact List.mem_cons_of_mem _ (List.mem_append_right _ (List.mem_cons_of_mem _ (ih.2 x hx)))

/-- A byte that is not ESC can be appended to both lines. -/
theorem Colorized.append_char {plain coloured : List Char} (h : Colorized plain coloured)
    (c : Char) (hc : c ≠ ESC) : Colorized (plain ++ [c]) (coloured ++ [c]) := by
  induction h with
  | nil => exact Colorized.keep c [] [] hc Colorized.nil
  | keep x plain coloured hx _ ih => exact Colorized.keep x _ _ hx ih
  | esc body plain coloured hb _ ih =>
      have := Colorized.esc body _ _ hb ih
      simpa using this

/-- Cutting both lines at their first NUL keeps the relation. -/
theorem Colorized.cstr {plain coloured : List Char} (h : Colorized plain coloured) :
    Colorized (cstr plain) (cstr coloured) := by
  induction h with
  | nil => exact Colorized.nil
  | keep c plain coloured hc _ ih =>
      unfold DisplayPriorityManager.cstr at ih ⊢
      by_cases hn : c = NUL
      · simp only [List.takeWhile_cons, hn, bne_self_eq_false, Bool.false_eq_true, if_false]
        exact Colorized.nil
      · have : (c != NUL) = true := by simpa using hn
        simp only [List.takeWhile_cons, this, if_true]
        exact Colorized.keep c _ _ hc ih
  | esc body plain coloured hb _ ih =>
      unfold DisplayPriorityManager.cstr at ih ⊢
      have hall : ∀ (body : List Char), (∀ b ∈ body, b ≠ 'm' ∧ b ≠ NUL) → ∀ rest : List Char,
          (body ++ rest).takeWhile (fun c => c != NUL)
            = body ++ rest.takeWhile (fun c => c != NUL) := by
        intro body
        induction body with
        | nil => intro _ rest; rfl
        | cons b body ihb =>
            intro hb rest
            have hbn : (b != NUL) = true := by
              simpa using (hb b (List.mem_cons_self _ _)).2
            simp only [List.cons_append, List.takeWhile_cons, hbn, if_true]
            rw [ihb (fun x hx => hb x (List.mem_cons_of_mem _ hx))]
      have hesc : (ESC != NUL) = true := by decide
      have hm : ('m' != NUL) = true := by decide
      simp only [List.takeWhile_cons, hesc, if_true]
      rw [hall body hb]
      simp only [List.takeWhile_cons, hm, if_true]
      exact Colorized.esc body _ _ hb ih

/-- The cleaned line of a coloured line that fits the buffer is the plain line,
whatever `line[]` held before the `fgets`. -/
theorem strip_ansi_colorized {plain coloured : List Char} (h : Colorized plain coloured)
    (hfit : coloured.length ≤ 1023) (line : List Char) :
    strip_ansi (fgets_store line coloured) = .ok (cstr plain) := by
  unfold strip_ansi fgets_store
  obtain ⟨behind', hsplit⟩ := cstr_split coloured (line.drop (coloured.length + 1))
  rw [hsplit]
  have := strip_loop_colorized h.cstr (cstr_no_nul coloured) behind' 0 []
    (by have := cstr_length_le coloured; omega)
  simpa using this

/-- The last call of `fgets` that stores something reads the unterminated end of
the stream. -/
theorem fgets_all_last :
    ∀ (last cur : List Char), '\n' ∉ last → cur.length + last.length ≤ 1023 →
      fgets_all 1024 last cur = if cur ++ last = [] then [] else [cur ++ last] := by
  intro last
  induction last with
  | nil =>
      intro cur _ _
      cases cur <;> simp [fgets_all]
  | cons c last ih =>
      intro cur hnl hlen
      have hc : c ≠ '\n' := fun e => hnl (by rw [e]; exact List.mem_cons_self _ _)
      have hrest : '\n' ∉ last := fun e => hnl (List.mem_cons_of_mem _ e)
      simp only [List.length_cons] at hlen
      by_cases hfull : cur.length + 1 = 1024 - 1
      · have hnil : last = [] := List.eq_nil_of_length_eq_zero (by omega)
        subst hnil
        simp [fgets_all, hfull]
      · have hcut : ¬ (c = '\n' ∨ cur.length + 1 = 1024 - 1) := by
          intro h
          rcases h with h | h
          · exact hc h
          · exact hfull h
        rw [fgets_all, if_neg hcut, ih (cur ++ [c]) hrest
          (by simp only [List.length_append, List.length_singleton]; omega)]
        simp

/-- The calls of `fgets` cut a dump into its lines when every line fits the
buffer. -/
theorem fgets_all_dump (last : List Char) (hnl : '\n' ∉ last) (hlen : last.length ≤ 1023) :
    ∀ lines : List (List Char), (∀ l ∈ lines, '\n' ∉ l ∧ l.length + 1 ≤ 1023) →
      fgets_all 1024 (dump_of lines last) []
        = lines.map (fun l => l ++ ['\n']) ++ (if last = [] then [] else [last]) := by
  intro lines
  induction lines with
  | nil =>
      intro _
      have := fgets_all_last last [] hnl (by simpa using hlen)
      simpa [dump_of] using this
  | cons l lines ih =>
      intro h
      have hl := h l (List.mem_cons_self _ _)
      have e : dump_of (l :: lines) last = l ++ '\n' :: dump_of lines last := by
        simp [dump_of]
      rw [e, fgets_all_fits 1024 _ l [] hl.1 (by simpa using hl.2),
        ih (fun x hx => h x (List.mem_cons_of_mem _ hx))]
      simp

/-- A line that is empty once cleaned changes nothing. -/
theorem process_line_nil (st : ParseState) : process_line st [] = st := by
  have h1 : strstr [] "Output:".toList = false := by decide
  have h2 : strstr [] "priority".toList = false := by decide
  unfold process_line
  rw [h1, h2]
  rfl

/-- The loop over the lines, when every line can be cleaned. -/
theorem parse_lines_of_clean {lines cleaned : List (List Char)}
    (h : List.Forall₂ (fun l c => ∀ line, strip_ansi (fgets_store line l) = Except.ok c)
      lines cleaned) :
    ∀ line st, parse_lines lines line st = .ok (cleaned.foldl process_line st) := by
  induction h with
  | nil => intro line st; rfl
  | cons hlc _ ih =>
      intro line st
      unfold parse_lines
      rw [hlc line]
      exact ih _ _

/-- The lines of a coloured dump, cleaned, are the lines of the plain dump. -/
theorem clean_colorized_lines {plain coloured : List (List Char)}
    (h : List.Forall₂ Colorized plain coloured)
    (hfit : ∀ l ∈ coloured, l.length + 1 ≤ 1023) :
    List.Forall₂ (fun l c => ∀ line, strip_ansi (fgets_store line l) = Except.ok c)
      (coloured.map (fun l => l ++ ['\n'])) (plain.map (fun p => cstr (p ++ ['\n']))) := by
  induction h with
  | nil => exact List.Forall₂.nil
  | @cons p q ps qs hpq _ ih =>
      refine List.Forall₂.cons ?_ (ih (fun l hl => hfit l (List.mem_cons_of_mem _ hl)))
      have hq := hfit q (List.mem_cons_self _ _)
      exact strip_ansi_colorized (hpq.append_char '\n' (by decide))
        (by simp only [List.length_append, List.length_singleton]; omega)

/-- The parse of a dump whose lines are coloured variants of the given plain
lines, each fitting the buffer. -/
theorem parse_colorized_dump {plain coloured : List (List Char)}
    {plain_last coloured_last : List Char}
    (hcol : List.Forall₂ Colorized plain coloured) (hlast : Colorized plain_last coloured_last)
    (hnl : ∀ l ∈ coloured, '\n' ∉ l) (hnl_last : '\n' ∉ coloured_last)
    (hfit : ∀ l ∈ coloured, l.length + 1 ≤ 1023) (hfit_last : coloured_last.length ≤ 1023) :
    parse_kscreen_output (some (dump_of coloured coloured_last))
      = .ok (0, save_display
          ((plain.map (fun p => cstr (p ++ ['\n'])) ++ [cstr plain_last]).foldl
            process_line ParseState.init)) := by
  unfold parse_kscreen_output
  simp only
  rw [fgets_all_dump coloured_last hnl_last hfit_last coloured
    (fun l hl => ⟨hnl l hl, hfit l hl⟩)]
  have hlines := clean_colorized_lines hcol hfit
  by_cases he : coloured_last = []
  · have hp : plain_last = [] := by
      have := hlast.length_le.1
      rw [he] at this
      exact List.eq_nil_of_length_eq_zero (by simpa using this)
    rw [if_pos he, List.append_nil, parse_lines_of_clean hlines, hp]
    have hc : cstr [] = [] := rfl
    rw [List.foldl_append, hc]
    simp only [List.foldl_cons, List.foldl_nil, process_line_nil]
  · rw [if_neg he]
    have hall : List.Forall₂
        (fun l c => ∀ line, strip_ansi (fgets_store line l) = Except.ok c)
        (coloured.map (fun l => l ++ ['\n']) ++ [coloured_last])
        (plain.map (fun p => cstr (p ++ ['\n'])) ++ [cstr plain_last]) :=
      List.rel_append hlines
        (List.Forall₂.cons (strip_ansi_colorized hlast hfit_last) List.Forall₂.nil)
    rw [parse_lines_of_clean hall]

/-- The plain lines are lines of their own that fit the buffer. -/
theorem plain_lines_facts {plain coloured : List (List Char)}
    (hcol : List.Forall₂ Colorized plain coloured)
    (hnl : ∀ l ∈ coloured, '\n' ∉ l) (hfit : ∀ l ∈ coloured, l.length + 1 ≤ 1023) :
    List.Forall₂ Colorized plain plain
      ∧ (∀ l ∈ plain, '\n' ∉ l) ∧ (∀ l ∈ plain, l.length + 1 ≤ 1023)
      ∧ List.Forall₂
          (fun p q => ∀ line, strip_ansi (fgets_store line (q ++ ['\n']))
            = Except.ok (cstr (p ++ ['\n'])))
          plain coloured := by
  induction hcol with
  | nil => exact ⟨List.Forall₂.nil, by simp, by simp, List.Forall₂.nil⟩
  | @cons p q ps qs hpq _ ih =>
      obtain ⟨h1, h2, h3, h4⟩ := ih (fun l hl => hnl l (List.mem_cons_of_mem _ hl))
        (fun l hl => hfit l (List.mem_cons_of_mem _ hl))
      have hq := hfit q (List.mem_cons_self _ _)
      have hqn := hnl q (List.mem_cons_self _ _)
      refine ⟨List.Forall₂.cons (Colorized.of_no_esc p hpq.plain_no_esc) h1, ?_, ?_,
        List.Forall₂.cons ?_ h4⟩
      · intro l hl
        rcases List.mem_cons.mp hl with hl | hl
        · rw [hl]; exact fun hm => hqn (hpq.length_le.2 _ hm)
        · exact h2 l hl
      · intro l hl
        rcases List.mem_cons.mp hl with hl | hl
        · rw [hl]; have := hpq.length_le.1; omega
        · exact h3 l hl
      · exact strip_ansi_colorized (hpq.append_char '\n' (by decide))
          (by simp only [List.length_append, List.length_singleton]; omega)

/-- Claim C7: take a plain dump (no ESC byte), given by its lines and by an
unterminated last line that may be empty, and a coloured variant obtained by
inserting escape sequences (ESC, bytes other than `m`, then `m`) anywhere in its
lines, every coloured line fitting `line[1024]` with its newline and its NUL. Then
the stripping loop turns every coloured line into the plain line, whatever
`line[]` held before, the plain dump is parsed without fault, and both dumps are
parsed into the same result. -/
theorem ansi_colors_do_not_change_parse (plain coloured : List (List Char))
    (plain_last coloured_last : List Char)
    (hcol : List.Forall₂ Colorized plain coloured) (hlast : Colorized plain_last coloured_last)
    (hnl : ∀ l ∈ coloured, '\n' ∉ l) (hnl_last : '\n' ∉ coloured_last)
    (hfit : ∀ l ∈ coloured, l.length + 1 ≤ 1023) (hfit_last : coloured_last.length ≤ 1023) :
    List.Forall₂
        (fun p q => ∀ line, strip_ansi (fgets_store line (q ++ ['\n']))
            = Except.ok (cstr (p ++ ['\n'])))
        plain coloured
    ∧ (∀ line, strip_ansi (fgets_store line coloured_last) = .ok (cstr plain_last))
    ∧ (∃ displays,
        parse_kscreen_output (some (dump_of plain plain_last)) = .ok (0, displays))
    ∧ parse_kscreen_output (some (dump_of coloured coloured_last))
        = parse_kscreen_output (some (dump_of plain plain_last)) := by
  obtain ⟨h1, h2, h3, h4⟩ := plain_lines_facts hcol hnl hfit
  have hplain := parse_colorized_dump h1
    (Colorized.of_no_esc plain_last hlast.plain_no_esc) h2
    (fun hm => hnl_last (hlast.length_le.2 _ hm)) h3
    (by have := hlast.length_le.1; omega)
  refine ⟨h4, strip_ansi_colorized hlast hfit_last, ⟨_, hplain⟩, ?_⟩
  rw [hplain]
  exact parse_colorized_dump hcol hlast hnl hnl_last hfit hfit_last

/-- Claim C7 on a dump of two lines with colour codes around `Output:` and before
the priority: both dumps give the record eDP-1 with priority 2. -/
theorem ansi_colors_do_not_change_parse_witness :
    parse_kscreen_output (some (dump_of coloured_lines []))
      = .ok (0, [{ name := "eDP-1".toList, priority := 2, is_internal := true }])
    ∧ parse_kscreen_output (some (dump_of coloured_lines []))
      = parse_kscreen_output (some (dump_of plain_lines [])) := by
  have hesc : ∀ b ∈ green, b ≠ 'm' ∧ b ≠ NUL := by decide
  have hreset : ∀ b ∈ reset, b ≠ 'm' ∧ b ≠ NUL := by decide
  have h1 : Colorized "Output: 1 eDP-1 enabled".toList
      (ESC :: (green ++ 'm' :: ("Output:".toList
        ++ ESC :: (reset ++ 'm' :: " 1 eDP-1 enabled".toList)))) := by
    refine Colorized.esc green _ _ hesc ?_
    refine Colorized.keep 'O' _ _ (by decide) ?_
    refine Colorized.keep 'u' _ _ (by decide) ?_
    refine Colorized.keep 't' _ _ (by decide) ?_
    refine Colorized.keep 'p' _ _ (by decide) ?_
    refine Colorized.keep 'u' _ _ (by decide) ?_
    refine Colorized.keep 't' _ _ (by decide) ?_
    refine Colorized.keep ':' _ _ (by decide) ?_
    exact Colorized.esc reset _ _ hreset
      (Colorized.of_no_esc " 1 eDP-1 enabled".toList (by decide))
  have h2 : Colorized "  priority 2".toList (ESC :: (green ++ 'm' :: "  priority 2".toList)) :=
    Colorized.esc green _ _ hesc (Colorized.of_no_esc _ (by decide))
  have h := ansi_colors_do_not_change_parse plain_lines coloured_lines [] []
    (List.Forall₂.cons h1 (List.Forall₂.cons h2 List.Forall₂.nil)) Colorized.nil
    (by decide) (by decide) (by decide) (by decide)
  exact ⟨rfl, h.2.2.2⟩

/-! ### The names of the records -/

/-- What `save_display` adds to `displays`: nothing or one well-formed record
named `current_output`. -/
theorem save_display_spec (st : ParseState) (hlen : st.current_output.length ≤ 63) :
    ∃ added, save_display st = st.displays ++ added
      ∧ (added.map (fun d => d.name)).Sublist [st.current_output]
      ∧ ∀ d ∈ added, d.well_formed := by
  unfold save_display
  split
  · rename_i hc
    refine ⟨_, rfl, by simp, ?_⟩
    intro d hd
    rw [List.mem_singleton] at hd
    rw [hd]
    exact ⟨hc.1, hlen, hc.2, rfl⟩
  · exact ⟨[], by simp, by simp, by simp⟩

/-- The C string of a text that is empty or starts with white space is so too. -/
theorem starts_with_space_cstr (a b : List Char)
    (ha : starts_with_space a = true) (hb : starts_with_space b = true) :
    starts_with_space (cstr (a ++ b)) = true := by
  have hsp : ∀ (c : Char) (r : List Char), isspace c = true →
      starts_with_space (cstr (c :: r)) = true := by
    intro c r hc
    have hn : (c != NUL) = true := by
      cases h : (c != NUL) with
      | true => rfl
      | false =>
          have : c = NUL := by simpa using h
          subst this
          revert hc
          decide
    simp only [cstr, List.takeWhile_cons, hn, if_true, starts_with_space, hc]
  cases a with
  | nil =>
      cases b with
      | nil => rfl
      | cons c r => exact hsp c r (by simpa [starts_with_space] using hb)
  | cons c r => exact hsp c (r ++ b) (by simpa [starts_with_space] using ha)

/-- The parser reads the name off a cleaned line `Output: <number> <name>...`. -/
theorem sscanf_output_line (number name t current_output : List Char)
    (hne : number ≠ []) (hdig : ∀ c ∈ number, isdigit c = true)
    (hname : name ≠ []) (hlen : name.length ≤ 63)
    (hns : ∀ c ∈ name, isspace c = false)
    (ht : starts_with_space t = true) :
    sscanf_output ("Output: ".toList ++ (number ++ ' ' :: (name ++ t))) current_output
      = name := by
  have e : "Output: ".toList ++ (number ++ ' ' :: (name ++ t))
      = [] ++ ("Output:".toList ++ ([' '] ++ (number ++ ([' '] ++ (name ++ t))))) := by
    have : "Output: ".toList = "Output:".toList ++ [' '] := by decide
    rw [this]
    simp
  have h1 := scan_s_token none [] "Output:".toList
    ([' '] ++ (number ++ ([' '] ++ (name ++ t)))) (by simp) (by decide) (by decide)
    (by simp [starts_with_space, isspace]) (by simp)
  have h2 := scan_d_digits [' '] number ([' '] ++ (name ++ t))
    (by simp [isspace]) hne hdig (by
      intro c hc
      simp only [List.singleton_append, List.head?_cons, Option.mem_def,
        Option.some.injEq] at hc
      rw [← hc]; decide)
  have h3 := scan_s_token (some 63) [' '] name t (by simp [isspace]) hname hns ht (by
    intro n hn
    simp only [Option.some.injEq] at hn
    omega)
  unfold sscanf_output
  rw [e, h1]
  simp only [h2, h3]

/-- A pattern without a given byte that occurs in a text followed by that byte
occurs in the text. -/
theorem infix_of_infix_concat (pattern text : List Char) (c : Char)
    (hne : pattern ≠ []) (hc : c ∉ pattern) (h : pattern <:+: text ++ [c]) :
    pattern <:+: text := by
  have h' : pattern.reverse <:+: c :: text.reverse := by
    have := List.reverse_infix.mpr h
    simpa using this
  rcases List.infix_cons_iff.mp h' with hp | hi
  · exfalso
    obtain ⟨x, xs, hx⟩ := List.exists_cons_of_ne_nil
      (show pattern.reverse ≠ [] by simpa using hne)
    rw [hx] at hp
    have hxc : x = c := by
      obtain ⟨r, hr⟩ := hp
      simp only [List.cons_append, List.cons.injEq] at hr
      exact hr.1
    apply hc
    have : x ∈ pattern.reverse := by rw [hx]; exact List.mem_cons_self _ _
    rw [← hxc]
    exact List.mem_reverse.mp this
  · exact List.reverse_infix.mp hi

/-- What the cleaned form of a valid line, with or without its newline, does to
`current_output`. -/
theorem announces_of_valid (l : DumpLine) (hvalid : l.valid) (tail : List Char)
    (htail : tail = [] ∨ tail = ['\n']) :
    announces (cstr (l.text ++ tail)) l.announced := by
  have htsp : starts_with_space tail = true := by
    rcases htail with h | h <;> rw [h] <;> decide
  cases l with
  | output number name rest =>
      obtain ⟨hne, hdig, hname, hlen, hchars, hrest⟩ := hvalid
      have hprefix : ∀ c ∈ "Output: ".toList, c ≠ NUL := by decide
      have hnum : ∀ c ∈ number, c ≠ NUL := fun c hc => (isdigit_facts c (hdig c hc)).2.2.2
      have hnm : ∀ c ∈ name, c ≠ NUL := fun c hc => (hchars c hc).2
      have hclean : cstr (DumpLine.text (DumpLine.output number name rest) ++ tail)
          = "Output: ".toList ++ (number ++ ' ' :: (name ++ cstr (rest ++ tail))) := by
        have e : DumpLine.text (DumpLine.output number name rest) ++ tail
            = "Output: ".toList ++ (number ++ ([' '] ++ (name ++ (rest ++ tail)))) := by
          simp [DumpLine.text]
        rw [e, cstr_append _ _ hprefix, cstr_append _ _ hnum,
          cstr_append _ _ (by decide), cstr_append _ _ hnm]
        rfl
      rw [hclean]
      refine ⟨?_, hlen, ?_⟩
      · rw [strstr_iff]
        refine ⟨[], [' '] ++ (number ++ ' ' :: (name ++ cstr (rest ++ tail))), ?_⟩
        have : "Output: ".toList = "Output:".toList ++ [' '] := by decide
        rw [this]
        simp
      · intro current_output
        exact sscanf_output_line number name _ current_output hne hdig hname hlen
          (fun c hc => (hchars c hc).1) (starts_with_space_cstr rest tail hrest htsp)
  | other text =>
      show strstr _ _ = false
      cases h : strstr (cstr (DumpLine.text (DumpLine.other text) ++ tail)) "Output:".toList with
      | false => rfl
      | true =>
          exfalso
          rw [strstr_iff] at h
          have hpre : cstr (text ++ tail) <+: text ++ tail := by
            unfold cstr
            exact List.takeWhile_prefix _
          have hin : "Output:".toList <:+: text ++ tail :=
            List.IsInfix.trans h hpre.isInfix
          rcases htail with ht | ht
          · rw [ht, List.append_nil] at hin
            exact hvalid hin
          · rw [ht] at hin
            exact hvalid (infix_of_infix_concat _ _ '\n' (by decide) (by decide) hin)

/-- The records that a run of cleaned lines and the final `save_display` add. -/
theorem fold_lines_spec {cleaned : List (List Char)} {ann : List (Option (List Char))}
    (h : List.Forall₂ announces cleaned ann) :
    ∀ st : ParseState, st.current_output.length ≤ 63 →
      ∃ added, save_display (cleaned.foldl process_line st) = st.displays ++ added
        ∧ (added.map (fun d => d.name)).Sublist (st.current_output :: ann.filterMap id)
        ∧ ∀ d ∈ added, d.well_formed := by
  induction h with
  | nil =>
      intro st hlen
      obtain ⟨added, h1, h2, h3⟩ := save_display_spec st hlen
      exact ⟨added, h1, by simpa using h2, h3⟩
  | @cons clean_line a cleaned ann ha _ ih =>
      intro st hlen
      rw [List.foldl_cons]
      cases a with
      | some name =>
          obtain ⟨hout, hnlen, hscan⟩ := ha
          have hst1 : process_line st clean_line
              = { displays := save_display st, current_output := name,
                  current_priority := -1 } := by
            unfold process_line
            rw [if_pos hout, hscan]
          rw [hst1]
          obtain ⟨added1, e1, s1, w1⟩ := ih
            { displays := save_display st, current_output := name, current_priority := -1 }
            hnlen
          obtain ⟨added0, e0, s0, w0⟩ := save_display_spec st hlen
          refine ⟨added0 ++ added1, ?_, ?_, ?_⟩
          · rw [e1]; simp only; rw [e0, List.append_assoc]
          · rw [List.map_append]
            have := List.Sublist.append s0 s1
            simpa using this
          · intro d hd
            rcases List.mem_append.mp hd with hd | hd
            · exact w0 d hd
            · exact w1 d hd
      | none =>
          have hout : ¬ strstr clean_line "Output:".toList = true := by
            have : strstr clean_line "Output:".toList = false := ha
            rw [this]
            exact Bool.false_ne_true
          by_cases hpri : strstr clean_line "priority".toList = true
          · have hst1 : process_line st clean_line
                = { displays := st.displays, current_output := st.current_output,
                    current_priority := sscanf_priority clean_line st.current_priority } := by
              unfold process_line
              rw [if_neg hout, if_pos hpri]
            rw [hst1]
            obtain ⟨added, e, s, w⟩ := ih
              { displays := st.displays, current_output := st.current_output,
                current_priority := sscanf_priority clean_line st.current_priority } hlen
            exact ⟨added, e, by simpa using s, w⟩
          · have hst1 : process_line st clean_line = st := by
              unfold process_line
              rw [if_neg hout, if_neg hpri]
            rw [hst1]
            obtain ⟨added, e, s, w⟩ := ih st hlen
            exact ⟨added, e, by simpa using s, w⟩

/-- What the cleaned lines of valid lines do to `current_output`. -/
theorem announces_of_valid_lines : ∀ items : List DumpLine, (∀ l ∈ items, l.valid) →
    List.Forall₂ announces ((items.map DumpLine.text).map (fun p => cstr (p ++ ['\n'])))
      (items.map DumpLine.announced) := by
  intro items
  induction items with
  | nil => intro _; exact List.Forall₂.nil
  | cons l items ih =>
      intro h
      exact List.Forall₂.cons
        (announces_of_valid l (h l (List.mem_cons_self _ _)) ['\n'] (Or.inr rfl))
        (ih (fun x hx => h x (List.mem_cons_of_mem _ hx)))

/-- An escape sequence without its final `m` makes the stripping loop step over the
NUL of the line and go on with what an earlier `fgets` left in `line[]`: the third
line of `stale_bytes_dump` is cleaned into `Output: 7 DP-1`, and the parse gives
two records named DP-1. Where no `fgets` has written yet, the embedding stops. -/
theorem unterminated_escape_reads_stale_bytes :
    parse_kscreen_output (some stale_bytes_dump)
      = .ok (0, [{ name := "DP-1".toList, priority := 5, is_internal := false },
                 { name := "DP-1".toList, priority := 1, is_internal := false }])
    ∧ parse_kscreen_output (some (ESC :: "[0".toList)) = .error Fault.read_unwritten := by
  constructor <;> rfl

/-- The conversion `%63s` cuts a longer name: two outputs whose names agree in their
first 63 bytes give two records of the same name. -/
theorem long_names_are_cut :
    parse_kscreen_output (some cut_names_dump)
      = .ok (0, [{ name := List.replicate 63 'x', priority := 1, is_internal := false },
                 { name := List.replicate 63 'x', priority := 2, is_internal := false }]) := by
  rfl

/-- Claim C6, amended. Take a dump whose lines fit `line[1024]` and whose escape
sequences all end in `m` (a coloured variant of plain lines), in which every line
that contains `Output:` reads `Output: <number> <name>`, the name of 1 to 63 bytes
without white space, followed by nothing or by white space and anything. Then
`parse_kscreen_output` returns 0 with well-formed records whose names are, in
order, among the names on the `Output:` lines; so they are pairwise distinct
whenever the names on the `Output:` lines are pairwise distinct. -/
theorem distinct_names_are_kept (items : List DumpLine) (last : DumpLine)
    (coloured : List (List Char)) (coloured_last : List Char)
    (hcol : List.Forall₂ Colorized (items.map DumpLine.text) coloured)
    (hlast : Colorized last.text coloured_last)
    (hnl : ∀ l ∈ coloured, '\n' ∉ l) (hnl_last : '\n' ∉ coloured_last)
    (hfit : ∀ l ∈ coloured, l.length + 1 ≤ 1023) (hfit_last : coloured_last.length ≤ 1023)
    (hvalid : ∀ l ∈ items ++ [last], l.valid) :
    ∃ displays,
      parse_kscreen_output (some (dump_of coloured coloured_last)) = .ok (0, displays)
      ∧ (displays.map (fun d => d.name)).Sublist
          ((items ++ [last]).filterMap DumpLine.announced)
      ∧ (((items ++ [last]).filterMap DumpLine.announced).Nodup →
          (displays.map (fun d => d.name)).Nodup)
      ∧ ∀ d ∈ displays, d.well_formed := by
  have hparse := parse_colorized_dump hcol hlast hnl hnl_last hfit hfit_last
  have hann : List.Forall₂ announces
      ((items.map DumpLine.text).map (fun p => cstr (p ++ ['\n'])) ++ [cstr last.text])
      ((items ++ [last]).map DumpLine.announced) := by
    rw [List.map_append]
    refine List.rel_append
      (announces_of_valid_lines items (fun l hl => hvalid l (List.mem_append_left _ hl)))
      (List.Forall₂.cons ?_ List.Forall₂.nil)
    have := announces_of_valid last
      (hvalid last (List.mem_append_right _ (List.mem_singleton_self _))) [] (Or.inl rfl)
    simpa using this
  obtain ⟨added, e, s, w⟩ := fold_lines_spec hann ParseState.init (by decide)
  have hadded : save_display
      (((items.map DumpLine.text).map (fun p => cstr (p ++ ['\n'])) ++ [cstr last.text]).foldl
        process_line ParseState.init) = added := by
    rw [e]; rfl
  rw [hadded] at hparse
  have hsub : (added.map (fun d => d.name)).Sublist
      ((items ++ [last]).filterMap DumpLine.announced) := by
    have s' : (added.map (fun d => d.name)).Sublist
        ([] :: (items ++ [last]).filterMap DumpLine.announced) := by
      have := s
      rw [List.filterMap_map] at this
      simpa [ParseState.init] using this
    rcases List.sublist_cons_iff.mp s' with s'' | ⟨r, hr, _⟩
    · exact s''
    · exfalso
      have hmem : ([] : List Char) ∈ added.map (fun d => d.name) := by
        rw [hr]; exact List.mem_cons_self _ _
      obtain ⟨d, hd, hname⟩ := List.mem_map.mp hmem
      exact (w d hd).1 hname
  exact ⟨added, hparse, hsub, fun hn => hn.sublist hsub, w⟩

/-- Claim C6, amended, on the example dump: its `Output:` lines name HDMI-1 and
eDP-1, and the two records have distinct names. -/
theorem distinct_names_are_kept_witness :
    dump_of (example_lines.map DumpLine.text) [] = example_dump_id_first
    ∧ (example_lines ++ [DumpLine.other []]).filterMap DumpLine.announced
        = ["HDMI-1".toList, "eDP-1".toList]
    ∧ ∃ displays,
        parse_kscreen_output (some (dump_of (example_lines.map DumpLine.text) []))
          = .ok (0, displays)
        ∧ (displays.map (fun d => d.name)).Nodup := by
  have hplain : ∀ l ∈ example_lines.map DumpLine.text, ∀ c ∈ l, c ≠ ESC := by decide
  have hcol : List.Forall₂ Colorized (example_lines.map DumpLine.text)
      (example_lines.map DumpLine.text) := by
    rw [List.forall₂_same]
    exact fun l hl => Colorized.of_no_esc l (hplain l hl)
  obtain ⟨displays, h1, _, h3, _⟩ :=
    distinct_names_are_kept example_lines (DumpLine.other [])
      (example_lines.map DumpLine.text) [] hcol Colorized.nil
      (by decide) (by decide) (by decide) (by decide) (by decide)
  exact ⟨by decide, by decide, displays, h1, h3 (by decide)⟩

/-! ### The command and its effect -/

/-- The text of `%d` for a number below 10000 has at most four digits. -/
theorem fmt_d_length (p : Int) (h0 : 0 ≤ p) (h : p < 10000) : (fmt_d p).length ≤ 4 := by
  unfold fmt_d
  rw [if_neg (by omega)]
  unfold Nat.toDigits
  exact Nat.toDigitsCore_length 10 (by decide) _ _ 4 (by omega) (by decide)

/-- The length of a directive: 18 bytes around the name and the priority. -/
theorem directive_length (a : List Char × Int) :
    (directive a).length = 18 + a.1.length + (fmt_d a.2).length := by
  simp [directive]
  omega

/-- The loop over the external displays appends one directive per external
display, with the priorities `ext_priority`, `ext_priority + 1`, ... in the order
of the topology, as long as the command stays within `command[2048]`; the `strcat`
that would leave it is the fault. -/
theorem append_externals_spec :
    ∀ (displays : List DisplayInfo) (p : Int) (command : List Char),
      (∀ d ∈ displays, d.name.length ≤ 63) → 0 ≤ p → p ≤ (command.length : Int) →
      command.length < 2048 →
      append_externals displays p command
        = if (command ++ ((number_from p
              (displays.filter (fun d => !d.is_internal))).map directive).flatten).length < 2048
          then .ok (command ++ ((number_from p
              (displays.filter (fun d => !d.is_internal))).map directive).flatten)
          else .error Fault.command_overflow := by
  intro displays
  induction displays with
  | nil =>
      intro p command _ _ _ hc
      simp [append_externals, number_from, hc]
  | cons d rest ih =>
      intro p command hlen hp0 hp hc
      have hrest : ∀ x ∈ rest, x.name.length ≤ 63 :=
        fun x hx => hlen x (List.mem_cons_of_mem _ hx)
      have hd := hlen d (List.mem_cons_self _ _)
      rw [append_externals]
      cases hint : d.is_internal with
      | true =>
          simp only [Bool.not_true, Bool.false_eq_true, if_false]
          rw [ih p command hrest hp0 hp hc]
          simp [List.filter_cons, hint]
      | false =>
          simp only [Bool.not_false, if_true]
          have hT : " output.".toList ++ d.name ++ ".priority.".toList ++ fmt_d p
              = directive (d.name, p) := rfl
          rw [hT]
          have hdl := directive_length (d.name, p)
          have hfl := fmt_d_length p hp0 (by omega)
          simp only at hdl
          have hsn : snprintf 256 (directive (d.name, p)) = directive (d.name, p) := by
            unfold snprintf
            exact List.take_of_length_le (by omega)
          rw [hsn]
          have hfilter : (d :: rest).filter (fun d => !d.is_internal)
              = d :: rest.filter (fun d => !d.is_internal) := by
            simp [List.filter_cons, hint]
          rw [hfilter]
          simp only [number_from, List.map_cons, List.flatten_cons]
          by_cases hfit : command.length + (directive (d.name, p)).length < 2048
          · rw [if_pos hfit, ih (p + 1) (command ++ directive (d.name, p)) hrest (by omega)
              (by simp only [List.length_append, hdl]; push_cast; omega)
              (by simpa using hfit)]
            simp only [List.append_assoc]
          · rw [if_neg hfit, if_neg]
            simp only [List.length_append] at hfit ⊢
            omega

/-- The first `snprintf` of `apply_kscreen_fix` writes the program name and the
directive of the internal display. -/
theorem initial_command_eq (name : List Char) (h : name.length ≤ 63) :
    snprintf 2048 ("kscreen-doctor output.".toList ++ name ++ ".priority.1".toList)
      = "kscreen-doctor".toList ++ directive (name, 1) := by
  have e : "kscreen-doctor output.".toList ++ name ++ ".priority.1".toList
      = "kscreen-doctor".toList ++ directive (name, 1) := by
    have h1 : fmt_d 1 = "1".toList := by decide
    have h2 : "kscreen-doctor output.".toList = "kscreen-doctor".toList ++ " output.".toList := by
      decide
    have h3 : ".priority.1".toList = ".priority.".toList ++ "1".toList := by decide
    unfold directive
    simp only [h1, h2, h3, List.append_assoc]
  unfold snprintf
  rw [List.take_of_length_le, e]
  simp only [List.length_append]
  have h4 : "kscreen-doctor output.".toList.length = 22 := by decide
  have h5 : ".priority.1".toList.length = 11 := by decide
  omega

/-- What `apply_kscreen_fix` does with a topology whose first internal display
has a priority other than 1: it renders the FixDecision into `command`, and then
logs it (dry run) or passes it to `system`, if the command stays within
`command[2048]`; else the `strcat` writes beyond the array. -/
theorem fix_displays_spec (dry_run : Bool) (system : List Char → Int)
    (displays : List DisplayInfo) (internal_display : DisplayInfo)
    (hlen : ∀ d ∈ displays, d.name.length ≤ 63)
    (hint : displays.find? (fun d => d.is_internal) = some internal_display)
    (hneed : internal_display.priority ≠ 1) :
    fix_displays dry_run system displays
      = if (render_command (fix_decision internal_display displays)).length < 2048 then
          .ok { ret := if dry_run then 0
                       else if system (render_command (fix_decision internal_display displays)) = 0
                         then 0 else -1,
                command := some (render_command (fix_decision internal_display displays)),
                system_calls := if dry_run then []
                  else [render_command (fix_decision internal_display displays)] }
        else .error Fault.command_overflow := by
  have hmem : internal_display ∈ displays := List.mem_of_find?_eq_some hint
  have hne : ¬ displays.length = 0 := by
    intro h
    rw [List.eq_nil_of_length_eq_zero h] at hmem
    exact absurd hmem (List.not_mem_nil _)
  have hname := hlen internal_display hmem
  have hdl := directive_length (internal_display.name, 1)
  have hf1 : (fmt_d 1).length = 1 := by decide
  have hk : "kscreen-doctor".toList.length = 14 := by decide
  have hrender : render_command (fix_decision internal_display displays)
      = ("kscreen-doctor".toList ++ directive (internal_display.name, 1))
        ++ ((number_from 2 (displays.filter (fun d => !d.is_internal))).map directive).flatten := by
    simp [render_command, fix_decision]
  unfold fix_displays
  rw [if_neg hne]
  simp only [hint, if_neg hneed]
  rw [initial_command_eq _ hname,
    append_externals_spec displays 2 _ hlen (by decide)
      (by simp only [List.length_append, hk, hdl]; push_cast; omega)
      (by simp only [List.length_append, hk, hdl, hf1]; omega),
    ← hrender]
  by_cases hfit : (render_command (fix_decision internal_display displays)).length < 2048
  · rw [if_pos hfit, if_pos hfit]
    cases dry_run
    · by_cases hs : system (render_command (fix_decision internal_display displays)) = 0
      · simp [hs]
      · simp [hs]
    · simp
  · rw [if_neg hfit, if_neg hfit]

/-- The names that `number_from` numbers. -/
theorem number_from_names : ∀ (l : List DisplayInfo) (p : Int),
    (number_from p l).map Prod.fst = l.map (fun d => d.name) := by
  intro l
  induction l with
  | nil => intro p; rfl
  | cons d rest ih => intro p; simp [number_from, ih]

/-- The priority `number_from` gives to the display at a position. -/
theorem number_from_getElem? : ∀ (l : List DisplayInfo) (p : Int) (k : Nat),
    (number_from p l)[k]? = (l[k]?).map (fun d => (d.name, p + k)) := by
  intro l
  induction l with
  | nil => intro p k; simp [number_from]
  | cons d rest ih =>
      intro p k
      cases k with
      | zero => simp [number_from]
      | succ k =>
          simp only [number_from, List.getElem?_cons_succ, ih]
          congr 1
          funext x
          push_cast
          congr 1
          omega

/-- The directives of displays whose names have at least `m` bytes take at least
`18 + m` bytes each. -/
theorem directives_length_ge (m : Nat) :
    ∀ decision : List (List Char × Int), (∀ a ∈ decision, m ≤ a.1.length) →
      (18 + m) * decision.length ≤ ((decision.map directive).flatten).length := by
  intro decision
  induction decision with
  | nil => intro _; simp
  | cons a rest ih =>
      intro h
      have ha := h a (List.mem_cons_self _ _)
      have hr := ih (fun b hb => h b (List.mem_cons_of_mem _ hb))
      have hd := directive_length a
      simp only [List.map_cons, List.flatten_cons, List.length_append, List.length_cons, hd]
      rw [Nat.mul_add]
      omega

set_option maxRecDepth 1000000 in
/-- The parse of `crowded_dump`. -/
theorem crowded_dump_parse :
    parse_kscreen_output (some crowded_dump) = .ok (0, crowded_topology) := by
  decide!

/-- The command for `crowded_topology` does not fit `command[2048]`. -/
theorem crowded_topology_overflows (dry_run : Bool) (system : List Char → Int) :
    fix_displays dry_run system crowded_topology = .error Fault.command_overflow := by
  have hlen : ∀ d ∈ crowded_topology, d.name.length ≤ 63 := by decide
  have hexternals : crowded_topology.filter (fun d => !d.is_internal)
      = (List.range 26).map (fun k =>
          { name := long_name k, priority := (k : Int) + 1, is_internal := false }) := by
    decide
  rw [fix_displays_spec dry_run system crowded_topology
    { name := "eDP-1".toList, priority := 27, is_internal := true } hlen rfl (by decide)]
  rw [if_neg]
  have hnames : ∀ a ∈ number_from 2 (crowded_topology.filter (fun d => !d.is_internal)),
      61 ≤ a.1.length := by
    intro a ha
    have h1 : a.1 ∈ (number_from 2
        (crowded_topology.filter (fun d => !d.is_internal))).map Prod.fst :=
      List.mem_map_of_mem _ ha
    rw [number_from_names, hexternals, List.map_map] at h1
    obtain ⟨k, _, hk⟩ := List.mem_map.mp h1
    rw [← hk]
    simp [long_name]
  have hge := directives_length_ge 61 _ hnames
  have hcount : (number_from 2 (crowded_topology.filter (fun d => !d.is_internal))).length
      = 26 := by
    have := congrArg List.length
      (number_from_names (crowded_topology.filter (fun d => !d.is_internal)) 2)
    rw [List.length_map, List.length_map, hexternals] at this
    simpa using this
  rw [hcount] at hge
  simp only [render_command, fix_decision, List.map_cons, List.flatten_cons, List.length_append]
  omega

/-- After a parse that returns 0, `apply_kscreen_fix` works on the displays found. -/
theorem apply_kscreen_fix_of_parse (dry_run : Bool) (env : AttemptEnv)
    (displays : List DisplayInfo)
    (h : parse_kscreen_output env.kscreen_pipe = .ok (0, displays)) :
    apply_kscreen_fix dry_run env = fix_displays dry_run env.system displays := by
  unfold apply_kscreen_fix
  rw [h]
  simp

/-- Claim C1, evaluated. For a parsed topology with exactly one internal record,
of priority other than 1, whose command fits `command[2048]`, `apply_kscreen_fix`
builds the rendering of the FixDecision: one directive per display, priority 1 for
the internal display and priority k+1 for the k-th external display in parse
order. The claim fails where the command does not fit: on `crowded_dump` (one
internal display and 26 external displays with names of 63 bytes) the `strcat`
writes beyond `command[2048]`. -/
theorem command_of_fix_and_its_overflow :
    (∀ (dry_run : Bool) (system : List Char → Int) (displays : List DisplayInfo)
        (internal_display : DisplayInfo),
        (∀ d ∈ displays, d.well_formed) →
        displays.filter (fun d => d.is_internal) = [internal_display] →
        internal_display.priority ≠ 1 →
        (render_command (fix_decision internal_display displays)).length < 2048 →
        (∃ out, fix_displays dry_run system displays = .ok out
          ∧ out.command = some (render_command (fix_decision internal_display displays)))
        ∧ (fix_decision internal_display displays).length = displays.length
        ∧ (fix_decision internal_display displays)[0]? = some (internal_display.name, 1)
        ∧ ∀ k : Nat, (fix_decision internal_display displays)[k + 1]?
            = ((displays.filter (fun d => !d.is_internal))[k]?).map
                (fun d => (d.name, (k : Int) + 2)))
    ∧ parse_kscreen_output (some crowded_dump) = .ok (0, crowded_topology)
    ∧ crowded_topology.filter (fun d => d.is_internal)
        = [{ name := "eDP-1".toList, priority := 27, is_internal := true }]
    ∧ (crowded_topology.filter (fun d => !d.is_internal)).length = 26
    ∧ apply_kscreen_fix false { kscreen_pipe := some crowded_dump, system := fun _ => 0 }
        = .error Fault.command_overflow := by
  refine ⟨?_, crowded_dump_parse, by decide, by decide, ?_⟩
  · intro dry_run system displays internal_display hwf hone hneed hfit
    have hint : displays.find? (fun d => d.is_internal) = some internal_display := by
      rw [← List.filter_head?, hone]
      rfl
    have hspec := fix_displays_spec dry_run system displays internal_display
      (fun d hd => (hwf d hd).2.1) hint hneed
    rw [if_pos hfit] at hspec
    refine ⟨⟨_, hspec, rfl⟩, ?_, by simp [fix_decision], ?_⟩
    · have h1 := displays.length_eq_length_filter_add (fun d => d.is_internal)
      have h2 := congrArg List.length
        (number_from_names (displays.filter (fun d => !d.is_internal)) 2)
      rw [List.length_map, List.length_map] at h2
      rw [hone] at h1
      simp only [fix_decision, List.length_cons, h2]
      simp only [List.length_singleton] at h1
      omega
    · intro k
      simp only [fix_decision, List.getElem?_cons_succ, number_from_getElem?]
      congr 1
      funext d
      congr 1
      omega
  · rw [apply_kscreen_fix_of_parse false
      { kscreen_pipe := some crowded_dump, system := fun _ => 0 } crowded_topology
      crowded_dump_parse]
    exact crowded_topology_overflows false _

/-- Claim C9, evaluated. For a parsed topology whose first internal display has a
priority other than 1 and whose command fits `command[2048]`, `apply_kscreen_fix`
in dry-run mode returns 0 and calls `system` not once; the command is only
logged. The claim fails where the command does not fit: on `crowded_dump` the
`strcat` writes beyond `command[2048]` before `dry_run` is tested. -/
theorem dry_run_and_its_overflow :
    (∀ (system : List Char → Int) (displays : List DisplayInfo)
        (internal_display : DisplayInfo),
        (∀ d ∈ displays, d.well_formed) →
        displays.find? (fun d => d.is_internal) = some internal_display →
        internal_display.priority ≠ 1 →
        (render_command (fix_decision internal_display displays)).length < 2048 →
        fix_displays true system displays
          = .ok { ret := 0,
                  command := some (render_command (fix_decision internal_display displays)),
                  system_calls := [] })
    ∧ (∀ system : List Char → Int,
        apply_kscreen_fix true { kscreen_pipe := some crowded_dump, system := system }
          = .error Fault.command_overflow) := by
  refine ⟨?_, ?_⟩
  · intro system displays internal_display hwf hint hneed hfit
    rw [fix_displays_spec true system displays internal_display
      (fun d hd => (hwf d hd).2.1) hint hneed, if_pos hfit]
    rfl
  · intro system
    rw [apply_kscreen_fix_of_parse true
      { kscreen_pipe := some crowded_dump, system := system } crowded_topology
      crowded_dump_parse]
    exact crowded_topology_overflows true _

/-! ### The stop flag -/

/-- What the loop does apart from the value of `running`. -/
theorem retry_loop_ignores_signal (max_retries retry_delay : Int)
    (call : Nat → Except Fault Int) (signal : Nat → Bool) :
    ∀ (fuel : Nat) (s t : LoopState),
      s.attempts = t.attempts → s.result = t.result → s.events = t.events →
      (retry_loop max_retries retry_delay call signal fuel s).map
          (fun r => (r.attempts, r.result, r.events))
        = (retry_loop max_retries retry_delay call (fun _ => false) fuel t).map
          (fun r => (r.attempts, r.result, r.events)) := by
  intro fuel
  induction fuel with
  | zero =>
      intro s t ha hr he
      simp only [retry_loop, Except.map, ha, hr, he]
  | succ fuel ih =>
      intro s t ha hr he
      obtain ⟨s1, hs1, ha1, hr1, he1⟩ : ∃ s1 : LoopState,
          (if signal s.attempts then signal_handler s else s) = s1
          ∧ s1.attempts = t.attempts ∧ s1.result = t.result ∧ s1.events = t.events := by
        by_cases hsig : signal s.attempts = true
        · exact ⟨signal_handler s, by simp [hsig], ha, hr, he⟩
        · exact ⟨s, by simp [hsig], ha, hr, he⟩
      simp only [retry_loop, hs1, Bool.false_eq_true, if_false]
      rw [ha1, hr1, he1]
      by_cases hcond : (t.attempts : Int) < max_retries ∧ t.result ≠ 0
      · rw [if_pos hcond, if_pos hcond]
        cases hcall : call t.attempts with
        | error f => rfl
        | ok result =>
            simp only
            by_cases h0 : result = 0
            · rw [if_pos h0, if_pos h0]
              rfl
            · rw [if_neg h0, if_neg h0]
              by_cases hmore : ((t.attempts + 1 : Nat) : Int) < max_retries
              · rw [if_pos hmore, if_pos hmore]
                exact ih _ _ rfl rfl rfl
              · rw [if_neg hmore, if_neg hmore]
                exact ih _ _ rfl rfl rfl
      · rw [if_neg hcond, if_neg hcond]
        simp only [Except.map, ha1, hr1, he1]

/-- Claim C5, evaluated. Whatever signals are delivered, `main` makes the same
attempts and the same sleeps and returns the same value as without any signal:
the loop never reads `running`. With the stop flag cleared before every test of
the loop condition, `main` still makes its three attempts and its two sleeps and
returns -1, the value it returns when the retries are exhausted. -/
theorem stop_flag_is_ignored :
    (∀ (o : Options) (host : HostEnv) (world : Nat → AttemptEnv) (signal : Nat → Bool),
        (main o host world signal).map (fun r => (r.ret, r.attempts, r.events))
          = (main o host world (fun _ => false)).map (fun r => (r.ret, r.attempts, r.events)))
    ∧ main forced_options bare_host (fun _ => no_pipe) (fun _ => true)
      = .ok { ret := -1, attempts := 3, running := false,
              events := [Event.attempt 1, Event.sleep 5, Event.attempt 2, Event.sleep 5,
                         Event.attempt 3] }
    ∧ main forced_options bare_host (fun _ => no_pipe) (fun _ => false)
      = .ok { ret := -1, attempts := 3, running := true,
              events := [Event.attempt 1, Event.sleep 5, Event.attempt 2, Event.sleep 5,
                         Event.attempt 3] } := by
  refine ⟨?_, rfl, rfl⟩
  intro o host world signal
  unfold main
  split
  · rfl
  · unfold run_attempts
    have h := retry_loop_ignores_signal o.max_retries o.retry_delay
      (fun k => (apply_display_fix o (world k)).map (fun out => out.ret)) signal
      (o.max_retries.toNat + 1)
      { attempts := 0, result := -1, running := true, events := [] }
      { attempts := 0, result := -1, running := true, events := [] } rfl rfl rfl
    generalize retry_loop o.max_retries o.retry_delay
        (fun k => (apply_display_fix o (world k)).map (fun out => out.ret)) signal
        (o.max_retries.toNat + 1)
        { attempts := 0, result := -1, running := true, events := [] } = with_signal at h
    generalize retry_loop o.max_retries o.retry_delay
        (fun k => (apply_display_fix o (world k)).map (fun out => out.ret)) (fun _ => false)
        (o.max_retries.toNat + 1)
        { attempts := 0, result := -1, running := true, events := [] } = without_signal at h
    cases with_signal <;> cases without_signal <;> simp_all [Except.map]

end DisplayPriorityManager
